import Mathlib

/-!
# RTP storage stream (gst/rtp/rtpstoragestream.c)

A shallow embedding of the per-stream packet storage used for forward error
correction, and proofs about insertion, lookup, recovery-group extraction and
windowed eviction.

Conventions of the embedding:

* a `GQueue` is the list of its elements read from `queue.head` along `next`
  (head first).  The head holds the newest entry, the tail the oldest one, so
  the storage read from oldest to newest is the reverse of that list;
* a `GList *` link of the queue is the index of the link counted in the
  direction of the traversal that produced it, `NULL` is `none`;
* `guint8`, `guint16`, `guint64` values are natural numbers; the places where
  the C arithmetic wraps (the 16 bit sequence difference, the 64 bit time
  difference, the signed view taken by `g_assert_cmpint`) reduce explicitly;
* a failed `g_assert` aborts the process: a function that asserts returns
  `Option`, `none` being the abort.
-/

namespace RtpStorage

/-! ## Clock times and buffers (GStreamer core) -/

/-- GStreamer: `GST_CLOCK_TIME_NONE` is `(GstClockTime) -1`, the 64 bit all-ones value. -/
def GST_CLOCK_TIME_NONE : Nat := 18446744073709551615

/-- GStreamer: `GST_CLOCK_TIME_IS_VALID (t)` is `t != GST_CLOCK_TIME_NONE`. -/
def GST_CLOCK_TIME_IS_VALID (t : Nat) : Bool := t != GST_CLOCK_TIME_NONE

/-- A `GstBuffer` as far as this file looks at it: an identity (standing for the
pointer) and the two timestamps read by `GST_BUFFER_DTS_OR_PTS`. -/
structure GstBuffer where
  id : Nat
  dts : Nat
  pts : Nat
deriving DecidableEq, Repr

/-- GStreamer: `GST_BUFFER_DTS_OR_PTS (buf)` is the DTS when it is valid, else the PTS. -/
def GST_BUFFER_DTS_OR_PTS (buf : GstBuffer) : Nat :=
  if GST_CLOCK_TIME_IS_VALID buf.dts then buf.dts else buf.pts

/-- The C expression `a - b` on two `guint64` values. -/
def guint64_sub (a b : Nat) : Nat := (a + 18446744073709551616 - b % 18446744073709551616) % 18446744073709551616

/-- The C conversion `(gint64) n` of a `guint64` value, as done by `g_assert_cmpint`. -/
def to_gint64 (n : Nat) : Int :=
  if n % 18446744073709551616 < 9223372036854775808 then ((n % 18446744073709551616 : Nat) : Int)
  else ((n % 18446744073709551616 : Nat) : Int) - 18446744073709551616

/-- The C conversion `(gint16) x` of an `int` value. -/
def to_gint16 (x : Int) : Int := (x + 32768) % 65536 - 32768

/-- GStreamer RTP library: `gst_rtp_buffer_compare_seqnum (seqnum1, seqnum2)` returns
`(gint16) (seqnum2 - seqnum1)`. -/
def gst_rtp_buffer_compare_seqnum (seqnum1 seqnum2 : Nat) : Int :=
  to_gint16 ((seqnum2 : Int) - (seqnum1 : Int))

/-- The C expression `MAX (a, b)`, that is `((a) > (b)) ? (a) : (b)`. -/
def MAX (a b : Nat) : Nat := if a > b then a else b

/-! ## The data model (rtpstoragestream.h) -/

/-- Modelled from the spec: `RtpStorageItem` is declared in rtpstoragestream.h;
its fields are the ones `rtp_storage_item_new` fills: the packet, its payload
type (`guint8`) and its sequence number (`guint16`). -/
structure RtpStorageItem where
  buffer : GstBuffer
  pt : Nat
  seq : Nat
deriving DecidableEq, Repr

/-- Modelled from the spec: `RtpStorageStream` is declared in rtpstoragestream.h;
the fields the source reads and writes are the queue (head first), the
high-water arrival time and the ssrc.  The mutex is left out. -/
structure RtpStorageStream where
  queue : List RtpStorageItem
  max_arrival_time : Nat
  ssrc : Nat
deriving DecidableEq, Repr

/-- The storage read from the oldest entry (`queue.tail`) to the newest
(`queue.head`): the order in which `it = queue.tail; it = it->prev` visits it. -/
def oldest_to_newest (stream : RtpStorageStream) : List RtpStorageItem :=
  stream.queue.reverse

/-! ## GLib queue operations -/

/-- GLib: `g_list_find_custom (list, data, func)` walks from `list` along `next`
and returns the first link for which `func (link->data, data)` is 0, or `NULL`. -/
def g_list_find_custom {α β : Type} : List α → β → (α → β → Int) → Option Nat
  | [], _, _ => none
  | x :: xs, data, func =>
    if func x data = 0 then some 0
    else (g_list_find_custom xs data func).map (fun i => i + 1)

/-- GLib: `g_queue_find_custom (queue, data, func)` is `g_list_find_custom (queue->head, data, func)`. -/
def g_queue_find_custom {α β : Type} (queue : List α) (data : β) (func : α → β → Int) : Option Nat :=
  g_list_find_custom queue data func

/-- GLib: `g_queue_push_tail (queue, data)` appends at the tail. -/
def g_queue_push_tail {α : Type} (queue : List α) (data : α) : List α := queue ++ [data]

/-- GLib: `g_queue_insert_before (queue, sibling, data)` inserts `data` in front of
the link `sibling` (towards the head); with a `NULL` sibling it pushes at the tail. -/
def g_queue_insert_before {α : Type} (queue : List α) (sibling : Option Nat) (data : α) : List α :=
  match sibling with
  | none => g_queue_push_tail queue data
  | some i => queue.take i ++ data :: queue.drop i

/-- GLib: `g_queue_pop_tail (queue)` removes the last element.  The source pops
`too_old_buffers_num` times, a count that never exceeds the queue length, so
the empty case is not met. -/
def g_queue_pop_tail {α : Type} (queue : List α) : List α := queue.dropLast

/-! ## rtpstoragestream.c -/

/-- Source: `rtp_storage_item_new`. -/
def rtp_storage_item_new (buffer : GstBuffer) (pt seq : Nat) : RtpStorageItem :=
  { buffer := buffer, pt := pt, seq := seq }

/-- Source: `rtp_storage_item_compare`; 0 means "found" for `g_queue_find_custom`. -/
def rtp_storage_item_compare (a b : RtpStorageItem) : Int :=
  let seq_diff := gst_rtp_buffer_compare_seqnum a.seq b.seq
  if seq_diff ≥ 0 then 0 else 1

/-- Source: `rtp_storage_stream_new`. -/
def rtp_storage_stream_new (ssrc : Nat) : RtpStorageStream :=
  { queue := [], max_arrival_time := GST_CLOCK_TIME_NONE, ssrc := ssrc }

/-- Source: `rtp_storage_stream_add_item`. -/
def rtp_storage_stream_add_item (stream : RtpStorageStream) (buffer : GstBuffer)
    (pt seq : Nat) : RtpStorageStream :=
  let item := rtp_storage_item_new buffer pt seq
  let sibling := g_queue_find_custom stream.queue item rtp_storage_item_compare
  { stream with queue := g_queue_insert_before stream.queue sibling item }

/-- The first loop of `rtp_storage_stream_resize`: `rest` is what is left of the
walk from the tail, `i` the loop counter; the result is `too_old_buffers_num`.
The counter is a `guint`; it is bounded by the queue length, itself a `guint`. -/
def resize_scan (max_arrival_time size_time : Nat) :
    List RtpStorageItem → Nat → Nat → Nat
  | [], _, too_old_buffers_num => too_old_buffers_num
  | item :: rest, i, too_old_buffers_num =>
    let arrival_time := GST_BUFFER_DTS_OR_PTS item.buffer
    if GST_CLOCK_TIME_IS_VALID arrival_time then
      if guint64_sub max_arrival_time arrival_time > size_time then
        resize_scan max_arrival_time size_time rest (i + 1) (i + 1)
      else too_old_buffers_num
    else resize_scan max_arrival_time size_time rest (i + 1) too_old_buffers_num

/-- The second loop of `rtp_storage_stream_resize`: `n` times `g_queue_pop_tail`. -/
def pop_tail_times {α : Type} : Nat → List α → List α
  | 0, queue => queue
  | n + 1, queue => pop_tail_times n (g_queue_pop_tail queue)

/-- Source: `rtp_storage_stream_resize`.  The three assertions come first;
`g_assert_cmpint (size_time, >, 0)` compares its operands as `gint64`. -/
def rtp_storage_stream_resize (stream : RtpStorageStream) (size_time : Nat) :
    Option RtpStorageStream :=
  if !GST_CLOCK_TIME_IS_VALID stream.max_arrival_time then none
  else if !GST_CLOCK_TIME_IS_VALID size_time then none
  else if !decide (to_gint64 size_time > 0) then none
  else
    let too_old_buffers_num :=
      resize_scan stream.max_arrival_time size_time stream.queue.reverse 0 0
    some { stream with queue := pop_tail_times too_old_buffers_num stream.queue }

/-- Source: `rtp_storage_stream_resize_and_add_item`. -/
def rtp_storage_stream_resize_and_add_item (stream : RtpStorageStream) (size_time : Nat)
    (buffer : GstBuffer) (pt seq : Nat) : Option RtpStorageStream :=
  let arrival_time := GST_BUFFER_DTS_OR_PTS buffer
  if GST_CLOCK_TIME_IS_VALID arrival_time then
    let stream1 : RtpStorageStream :=
      if GST_CLOCK_TIME_IS_VALID stream.max_arrival_time then
        { stream with max_arrival_time := MAX stream.max_arrival_time arrival_time }
      else
        { stream with max_arrival_time := arrival_time }
    match rtp_storage_stream_resize stream1 size_time with
    | none => none
    | some stream2 => some (rtp_storage_stream_add_item stream2 buffer pt seq)
  else
    some (rtp_storage_stream_add_item stream buffer pt seq)

/-- Source: `rtp_storage_stream_get_redundant_packet`; the walk starts at
`queue.head` and follows `next`. -/
def get_redundant_packet_loop (lost_seq : Nat) : List RtpStorageItem → Option GstBuffer
  | [] => none
  | item :: rest =>
    if item.seq = lost_seq then some item.buffer
    else get_redundant_packet_loop lost_seq rest

/-- Source: `rtp_storage_stream_get_redundant_packet`. -/
def rtp_storage_stream_get_redundant_packet (stream : RtpStorageStream) (lost_seq : Nat) :
    Option GstBuffer :=
  get_redundant_packet_loop lost_seq stream.queue

/-! ## Specification-side notions -/

/-- The sort condition on a storage read oldest to newest: every adjacent pair
(older `a`, newer `b`) has `(gint16) (a.seq - b.seq) <= 0`, that is
`gst_rtp_buffer_compare_seqnum (b.seq, a.seq) <= 0`. -/
def adjacent_sorted : List RtpStorageItem → Prop
  | [] => True
  | [_] => True
  | a :: b :: rest =>
    gst_rtp_buffer_compare_seqnum b.seq a.seq ≤ 0 ∧ adjacent_sorted (b :: rest)

instance adjacent_sorted_decidable : (entries : List RtpStorageItem) →
    Decidable (adjacent_sorted entries)
  | [] => isTrue trivial
  | [_] => isTrue trivial
  | a :: b :: rest =>
    match adjacent_sorted_decidable (b :: rest) with
    | isTrue h =>
      if hc : gst_rtp_buffer_compare_seqnum b.seq a.seq ≤ 0 then isTrue ⟨hc, h⟩
      else isFalse (fun hh => hc hh.1)
    | isFalse h => isFalse (fun hh => h hh.2)

/-- The stream states reachable from `rtp_storage_stream_new` by calls of
`rtp_storage_stream_add_item` and `rtp_storage_stream_resize_and_add_item`
(a call that aborts on an assertion reaches nothing). -/
inductive Reachable : RtpStorageStream → Prop
  | new (ssrc : Nat) : Reachable (rtp_storage_stream_new ssrc)
  | add_item (stream : RtpStorageStream) (buffer : GstBuffer) (pt seq : Nat) :
      Reachable stream → Reachable (rtp_storage_stream_add_item stream buffer pt seq)
  | resize_and_add_item (stream stream1 : RtpStorageStream) (size_time : Nat)
      (buffer : GstBuffer) (pt seq : Nat) :
      Reachable stream →
      rtp_storage_stream_resize_and_add_item stream size_time buffer pt seq = some stream1 →
      Reachable stream1

/-! ## Recovery-group extraction: source and specification -/

/-- The local variables of `rtp_storage_stream_get_packets_for_recovery` that its
first loop updates.  A link is the position of the entry counted from
`queue.tail` (0 is the oldest entry), `NULL` is `none`.  The C variable `end`
is called `end_` here. -/
structure RecoveryScan where
  ret_length : Nat
  end_ : Option Nat
  start : Option Nat
  saw_fec : Bool
deriving DecidableEq, Repr

/-- The first loop of `rtp_storage_stream_get_packets_for_recovery`: `it` is the
current link, `item :: rest` the entries from `it` on along `prev` (so the
head of `rest` is `it->prev->data`). -/
def recovery_scan (pt_fec lost_seq : Nat) :
    Nat → List RtpStorageItem → RecoveryScan → RecoveryScan
  | _, [], st => st
  | it, item :: rest, st =>
    if item.seq = lost_seq then
      { st with start := some it, end_ := some it, ret_length := 1 }
    else
      let found_end_st : Bool × RecoveryScan :=
        if pt_fec = item.pt then
          let seq_diff := gst_rtp_buffer_compare_seqnum lost_seq item.seq
          let found_end : Bool :=
            if seq_diff ≥ 0 then
              match rest with
              | prev :: _ => decide (pt_fec ≠ prev.pt)
              | [] => true
            else false
          (found_end, { st with saw_fec := true })
        else if st.saw_fec then
          (false, { st with saw_fec := false, start := some it, ret_length := 0 })
        else (false, st)
      let st2 : RecoveryScan :=
        { found_end_st.2 with ret_length := found_end_st.2.ret_length + 1 }
      if found_end_st.1 then { st2 with end_ := some it }
      else recovery_scan pt_fec lost_seq (it + 1) rest st2

/-- The second loop of `rtp_storage_stream_get_packets_for_recovery`,
`for (it = start; it != end->prev; it = it->prev)`: `stop` is `end->prev`, the
list holds the entries from `it` on.  The walk cannot run off the queue before
meeting a non-`NULL` `stop`, because `start` is never beyond `end`. -/
def recovery_collect (stop : Option Nat) : Nat → List RtpStorageItem → List GstBuffer
  | _, [] => []
  | it, item :: rest =>
    if stop = some it then [] else item.buffer :: recovery_collect stop (it + 1) rest

/-- Source: `rtp_storage_stream_get_packets_for_recovery`.  The returned
`GstBufferList` is the list of its buffers, `NULL` is `none`; `ret_length` only
sizes the allocation. -/
def rtp_storage_stream_get_packets_for_recovery (stream : RtpStorageStream)
    (pt_fec lost_seq : Nat) : Option (List GstBuffer) :=
  let entries := stream.queue.reverse
  let st := recovery_scan pt_fec lost_seq 0 entries
    { ret_length := 0, end_ := none, start := none, saw_fec := true }
  let start := if st.end_.isSome && !st.start.isSome then st.end_ else st.start
  match start, st.end_ with
  | some s, some e =>
    let end_prev := if e + 1 < entries.length then some (e + 1) else none
    some (recovery_collect end_prev s (entries.drop s))
  | _, _ => none

/-- Whether the first entry `e` of an oldest-to-newest run of the storage is
"closing" for `lost_seq`: `e.pt == pt_fec`, `(gint16) (e.seq - lost_seq) >= 0`,
and `e` is the newest entry or its newer neighbour has `pt != pt_fec`. -/
def is_closing (pt_fec lost_seq : Nat) : List RtpStorageItem → Bool
  | [] => false
  | e :: newer =>
    decide (e.pt = pt_fec) && decide (0 ≤ to_gint16 ((e.seq : Int) - (lost_seq : Int))) &&
      (match newer with
        | [] => true
        | n :: _ => decide (n.pt ≠ pt_fec))

/-- The position, from the oldest end, of the oldest-positioned closing entry. -/
def first_closing (pt_fec lost_seq : Nat) : List RtpStorageItem → Option Nat
  | [] => none
  | e :: newer =>
    if is_closing pt_fec lost_seq (e :: newer) then some 0
    else (first_closing pt_fec lost_seq newer).map (fun j => j + 1)

/-- The position of the first entry of the last maximal run of media entries
(`pt != pt_fec`) of `before`, `none` when `before` holds no media entry.  Read
back from its newest end, `before` shows a run of FEC entries, then that run of
media entries. -/
def last_media_run_start (pt_fec : Nat) (before : List RtpStorageItem) : Option Nat :=
  let nearest_first := before.reverse
  let fec_run := nearest_first.takeWhile (fun e => decide (e.pt = pt_fec))
  let media_run :=
    (nearest_first.dropWhile (fun e => decide (e.pt = pt_fec))).takeWhile
      (fun e => decide (e.pt ≠ pt_fec))
  if media_run.isEmpty then none
  else some (before.length - fec_run.length - media_run.length)

/-- The older boundary `i` of the group closed at position `j`: the first entry
of the last maximal run of media entries located before `j`, or `j` itself
when no media entry is located before `j`. -/
def group_start (pt_fec : Nat) (entries : List RtpStorageItem) (j : Nat) : Nat :=
  (last_media_run_start pt_fec (entries.take j)).getD j

/-- The recovery group as the specification words it, on the storage read
oldest to newest: the packets of the run from `group_start` to the
oldest-positioned closing entry, `none` without a closing entry. -/
def spec_recovery_group (pt_fec lost_seq : Nat) (entries : List RtpStorageItem) :
    Option (List GstBuffer) :=
  match first_closing pt_fec lost_seq entries with
  | none => none
  | some j =>
    let i := group_start pt_fec entries j
    some (((entries.drop i).take (j + 1 - i)).map (fun e => e.buffer))

/-- A packet for the examples: identity and both
timestamps are derived from the sequence number. -/
def example_packet (seq : Nat) : GstBuffer := { id := seq, dts := 1000 + seq, pts := 1000 + seq }

/-- The storage of the example of the source comment and of the specification:
media 0, 1, 2, FEC 3, 4, 5, media 6, 8 and FEC 9, 10 (payload type 100 for
FEC, 96 for media), inserted in that order. -/
def example_storage : RtpStorageStream :=
  let s0 := rtp_storage_stream_new 1
  let s1 := rtp_storage_stream_add_item s0 (example_packet 0) 96 0
  let s2 := rtp_storage_stream_add_item s1 (example_packet 1) 96 1
  let s3 := rtp_storage_stream_add_item s2 (example_packet 2) 96 2
  let s4 := rtp_storage_stream_add_item s3 (example_packet 3) 100 3
  let s5 := rtp_storage_stream_add_item s4 (example_packet 4) 100 4
  let s6 := rtp_storage_stream_add_item s5 (example_packet 5) 100 5
  let s7 := rtp_storage_stream_add_item s6 (example_packet 6) 96 6
  let s8 := rtp_storage_stream_add_item s7 (example_packet 8) 96 8
  let s9 := rtp_storage_stream_add_item s8 (example_packet 9) 100 9
  rtp_storage_stream_add_item s9 (example_packet 10) 100 10

/-- A storage whose sequence numbers span more than half of the sequence space:
media 65000, FEC 0 (payload type 100), media 30000 and media 60000, inserted
in that order.  Every adjacent pair is in cyclic order. -/
def wide_storage : RtpStorageStream :=
  let s0 := rtp_storage_stream_new 1
  let s1 := rtp_storage_stream_add_item s0 (example_packet 65000) 96 65000
  let s2 := rtp_storage_stream_add_item s1 (example_packet 0) 100 0
  let s3 := rtp_storage_stream_add_item s2 (example_packet 30000) 96 30000
  rtp_storage_stream_add_item s3 (example_packet 60000) 96 60000

/-- Whether the first loop of the recovery scan has `saw_fec` set after walking
`before`: at the start, or when the last entry walked is an FEC entry. -/
def after_fec (pt_fec : Nat) (before : List RtpStorageItem) : Bool :=
  match before.reverse with
  | [] => true
  | y :: _ => decide (y.pt = pt_fec)

/-! ## Windowed eviction: specification-side notions -/

/-- The entry's packet has a valid arrival timestamp (DTS, else PTS). -/
def has_arrival_time (item : RtpStorageItem) : Prop :=
  GST_CLOCK_TIME_IS_VALID (GST_BUFFER_DTS_OR_PTS item.buffer) = true

instance (item : RtpStorageItem) : Decidable (has_arrival_time item) := by
  unfold has_arrival_time; infer_instance

/-- The entry has a valid arrival timestamp `t` and the C expression
`max_arrival_time - t` (unsigned 64 bit) exceeds the window. -/
def too_old (max_arrival_time size_time : Nat) (item : RtpStorageItem) : Prop :=
  has_arrival_time item ∧
    guint64_sub max_arrival_time (GST_BUFFER_DTS_OR_PTS item.buffer) > size_time

instance (max_arrival_time size_time : Nat) (item : RtpStorageItem) :
    Decidable (too_old max_arrival_time size_time item) := by
  unfold too_old; infer_instance

/-- A storage (oldest to newest) on which the eviction scan removes nothing: a
run of entries without arrival timestamp, then nothing or an entry that is
young enough. -/
def settled (max_arrival_time size_time : Nat) (entries : List RtpStorageItem) : Prop :=
  ∃ untimed tail, entries = untimed ++ tail ∧ (∀ e ∈ untimed, ¬ has_arrival_time e) ∧
    (∀ y ∈ tail.head?, has_arrival_time y ∧
      guint64_sub max_arrival_time (GST_BUFFER_DTS_OR_PTS y.buffer) ≤ size_time)

/-- The stream states reachable from `rtp_storage_stream_new` by calls of
`rtp_storage_stream_resize_and_add_item` alone, the timestamps of the packets
being `guint64` values. -/
inductive ReachableByResizeAndAdd : RtpStorageStream → Prop
  | new (ssrc : Nat) : ReachableByResizeAndAdd (rtp_storage_stream_new ssrc)
  | step (stream stream1 : RtpStorageStream) (size_time : Nat)
      (buffer : GstBuffer) (pt seq : Nat) :
      ReachableByResizeAndAdd stream →
      buffer.dts < 18446744073709551616 → buffer.pts < 18446744073709551616 →
      rtp_storage_stream_resize_and_add_item stream size_time buffer pt seq = some stream1 →
      ReachableByResizeAndAdd stream1

/-- A stream in which an entry without arrival timestamp (seq 1, DTS and PTS
both `GST_CLOCK_TIME_NONE`) lies on the older side of an entry that arrived at
time 0 (seq 2), with the high-water mark at 100. -/
def untimed_then_old : RtpStorageStream :=
  { queue := [⟨⟨2, 0, 0⟩, 96, 2⟩,
      ⟨⟨1, 18446744073709551615, 18446744073709551615⟩, 96, 1⟩],
    max_arrival_time := 100, ssrc := 1 }

/-- A stream holding (oldest to newest) seq 1 arrived at time 0, seq 2 without
arrival timestamp and seq 3 arrived at time 95, with the high-water mark at 100. -/
def untimed_between : RtpStorageStream :=
  { queue := [⟨⟨3, 95, 95⟩, 96, 3⟩,
      ⟨⟨2, 18446744073709551615, 18446744073709551615⟩, 96, 2⟩, ⟨⟨1, 0, 0⟩, 96, 1⟩],
    max_arrival_time := 100, ssrc := 1 }

/-- The stream after one call of `rtp_storage_stream_resize_and_add_item` on a
new stream, with window 10 and a packet of seq 1 arrived at time 100. -/
def after_first_packet : RtpStorageStream :=
  { queue := [⟨⟨1, 100, 100⟩, 96, 1⟩], max_arrival_time := 100, ssrc := 1 }

/-- The invariant behind the eviction arithmetic: the high-water mark is a
`guint64` value, and every stored entry with a valid arrival timestamp `t` has
`t <= max_arrival_time`, the latter being valid. -/
def timestamps_below_max (stream : RtpStorageStream) : Prop :=
  stream.max_arrival_time < 18446744073709551616 ∧
  ∀ e ∈ stream.queue, has_arrival_time e →
    GST_CLOCK_TIME_IS_VALID stream.max_arrival_time = true ∧
    GST_BUFFER_DTS_OR_PTS e.buffer ≤ stream.max_arrival_time

/-- A stream holding (oldest to newest) seq 1 arrived at time 0 and seq 2
arrived at time 95, with the high-water mark at 100. -/
def old_then_young : RtpStorageStream :=
  { queue := [⟨⟨2, 95, 95⟩, 96, 2⟩, ⟨⟨1, 0, 0⟩, 96, 1⟩], max_arrival_time := 100, ssrc := 1 }

/-- What `rtp_storage_stream_resize` with window 10 leaves of `old_then_young`. -/
def young_only : RtpStorageStream :=
  { queue := [⟨⟨2, 95, 95⟩, 96, 2⟩], max_arrival_time := 100, ssrc := 1 }

/-! ## Runs of calls -/

/-- The arguments of one call of `rtp_storage_stream_resize_and_add_item`. -/
structure Call where
  size_time : Nat
  buffer : GstBuffer
  pt : Nat
  seq : Nat
deriving DecidableEq, Repr

/-- A sequence of `rtp_storage_stream_resize_and_add_item` calls, one after the
other on the same stream; `none` when one of them aborts on an assertion. -/
def resize_and_add_items (stream : RtpStorageStream) : List Call → Option RtpStorageStream
  | [] => some stream
  | c :: rest =>
    match rtp_storage_stream_resize_and_add_item stream c.size_time c.buffer c.pt c.seq with
    | none => none
    | some stream1 => resize_and_add_items stream1 rest

/-- The valid arrival timestamps of the packets passed by a sequence of calls. -/
def valid_arrival_times (calls : List Call) : List Nat :=
  (calls.map (fun c => GST_BUFFER_DTS_OR_PTS c.buffer)).filter GST_CLOCK_TIME_IS_VALID

/-- The stream on which `rtp_storage_stream_resize_and_add_item` calls
`rtp_storage_stream_resize`: the given one with the high-water mark brought up
to the new arrival time. -/
def with_arrival_time (stream : RtpStorageStream) (arrival_time : Nat) : RtpStorageStream :=
  if GST_CLOCK_TIME_IS_VALID stream.max_arrival_time then
    { stream with max_arrival_time := MAX stream.max_arrival_time arrival_time }
  else
    { stream with max_arrival_time := arrival_time }

/-- A sequence of `rtp_storage_stream_add_item` calls, one after the other on
the same stream; each entry of `items` gives the packet, payload type and
sequence number of one call. -/
def add_items (stream : RtpStorageStream) : List RtpStorageItem → RtpStorageStream
  | [] => stream
  | x :: rest => add_items (rtp_storage_stream_add_item stream x.buffer x.pt x.seq) rest

/-- A run of four calls with window 10: packets arriving at 100, without
timestamp, at 250 and at 120. -/
def example_calls : List Call :=
  [⟨10, ⟨1, 100, 100⟩, 96, 1⟩,
   ⟨10, ⟨2, 18446744073709551615, 18446744073709551615⟩, 96, 2⟩,
   ⟨10, ⟨3, 250, 250⟩, 96, 3⟩, ⟨10, ⟨4, 120, 120⟩, 96, 4⟩]

/-- The stream at the end of `example_calls`: the first packet has been evicted. -/
def example_calls_end : RtpStorageStream :=
  { queue := [⟨⟨4, 120, 120⟩, 96, 4⟩, ⟨⟨3, 250, 250⟩, 96, 3⟩,
      ⟨⟨2, 18446744073709551615, 18446744073709551615⟩, 96, 2⟩],
    max_arrival_time := 250, ssrc := 1 }

/-- The key of a sequence number relative to a base `b`: `(seq - b) mod 65536`. -/
def seq_key (b seq : Nat) : Int := ((seq : Int) - (b : Int)) % 65536

/-- Four entries whose sequence numbers straddle the wraparound, in the order
of their insertion: 65534, 1, 65535, 0. -/
def wraparound_items : List RtpStorageItem :=
  [⟨example_packet 65534, 96, 65534⟩, ⟨example_packet 1, 96, 1⟩,
   ⟨example_packet 65535, 96, 65535⟩, ⟨example_packet 0, 96, 0⟩]

/-- A storage of two FEC entries (payload type 100), seq 1 then seq 2, and no
media entry. -/
def fec_pair_storage : RtpStorageStream :=
  rtp_storage_stream_add_item
    (rtp_storage_stream_add_item (rtp_storage_stream_new 1) (example_packet 1) 100 1)
    (example_packet 2) 100 2

/-- A stream holding one entry: packet 1 with seq 7. -/
def single_storage : RtpStorageStream :=
  rtp_storage_stream_add_item (rtp_storage_stream_new 1) ⟨1, 10, 10⟩ 96 7

/-- The stream `single_storage` after a second packet, packet 2, was added with
the same seq 7. -/
def duplicate_storage : RtpStorageStream :=
  rtp_storage_stream_add_item single_storage ⟨2, 20, 20⟩ 96 7

/-- A storage whose sequence numbers span more than half of the sequence space:
0, 30000 and 60000, inserted in that order. -/
def spread_storage : RtpStorageStream :=
  rtp_storage_stream_add_item
    (rtp_storage_stream_add_item
      (rtp_storage_stream_add_item (rtp_storage_stream_new 1) (example_packet 0) 96 0)
      (example_packet 30000) 96 30000)
    (example_packet 60000) 96 60000

/-- The insertion position as the specification words it, on the storage read
oldest to newest: the position of the first entry, from the oldest end, whose
seq is not cyclically older than `s` (`e` is cyclically older than `s` when
`(gint16) (s - e.seq) > 0`), or the newest end when there is none. -/
def spec_insert_position (s : Nat) : List RtpStorageItem → Nat
  | [] => 0
  | e :: newer =>
    if 0 < to_gint16 ((s : Int) - (e.seq : Int)) then spec_insert_position s newer + 1
    else 0

/-- Insertion as the specification words it: the new entry goes immediately
before the entry at `spec_insert_position`. -/
def spec_add_item (entries : List RtpStorageItem) (x : RtpStorageItem) : List RtpStorageItem :=
  entries.take (spec_insert_position x.seq entries) ++
    x :: entries.drop (spec_insert_position x.seq entries)

/-! ## Lemmas on the queue operations -/

theorem insert_before_find_nil (x : RtpStorageItem) :
    g_queue_insert_before [] (g_queue_find_custom [] x rtp_storage_item_compare) x = [x] := by
  simp [g_queue_find_custom, g_list_find_custom, g_queue_insert_before, g_queue_push_tail]

theorem insert_before_find_cons (h : RtpStorageItem) (t : List RtpStorageItem)
    (x : RtpStorageItem) :
    g_queue_insert_before (h :: t) (g_queue_find_custom (h :: t) x rtp_storage_item_compare) x
      = if rtp_storage_item_compare h x = 0 then x :: h :: t
        else h :: g_queue_insert_before t (g_queue_find_custom t x rtp_storage_item_compare) x := by
  unfold g_queue_find_custom
  by_cases hc : rtp_storage_item_compare h x = 0
  · simp [g_list_find_custom, hc, g_queue_insert_before]
  · simp only [g_list_find_custom, hc, if_false]
    cases hf : g_list_find_custom t x rtp_storage_item_compare with
    | none => simp [g_queue_insert_before, g_queue_push_tail]
    | some i => simp [g_queue_insert_before]

theorem item_compare_eq_zero_iff (a b : RtpStorageItem) :
    rtp_storage_item_compare a b = 0 ↔ 0 ≤ gst_rtp_buffer_compare_seqnum a.seq b.seq := by
  unfold rtp_storage_item_compare
  by_cases h : gst_rtp_buffer_compare_seqnum a.seq b.seq ≥ 0
  · simp [h]
  · simp [h]

/-- Where the new entry goes: it splits the old queue (head first) in two, and no
entry of the head part is found by the comparison. -/
theorem insert_before_find_split (q : List RtpStorageItem) (x : RtpStorageItem) :
    ∃ pre post, q = pre ++ post ∧
      g_queue_insert_before q (g_queue_find_custom q x rtp_storage_item_compare) x
        = pre ++ x :: post ∧
      (∀ e ∈ pre, gst_rtp_buffer_compare_seqnum e.seq x.seq < 0) ∧
      (∀ e ∈ post.head?, 0 ≤ gst_rtp_buffer_compare_seqnum e.seq x.seq) := by
  induction q with
  | nil => exact ⟨[], [], rfl, by rw [insert_before_find_nil]; rfl, by simp, by simp⟩
  | cons h t ih =>
    rw [insert_before_find_cons]
    by_cases hc : rtp_storage_item_compare h x = 0
    · refine ⟨[], h :: t, rfl, by simp [hc], by simp, ?_⟩
      intro e he
      simp at he
      subst he
      exact (item_compare_eq_zero_iff _ x).1 hc
    · obtain ⟨pre, post, h1, h2, h3, h4⟩ := ih
      refine ⟨h :: pre, post, by simp [h1], by simp [hc, h2], ?_, h4⟩
      intro e he
      rcases List.mem_cons.1 he with rfl | he
      · have := (item_compare_eq_zero_iff e x).not.1 hc
        omega
      · exact h3 e he

theorem compare_seqnum_self (s : Nat) : gst_rtp_buffer_compare_seqnum s s = 0 := by
  simp [gst_rtp_buffer_compare_seqnum, to_gint16]

/-- Swapping the operands of a non-negative comparison gives a non-positive one. -/
theorem compare_seqnum_swap (a b : Nat) (h : 0 ≤ gst_rtp_buffer_compare_seqnum a b) :
    gst_rtp_buffer_compare_seqnum b a ≤ 0 := by
  unfold gst_rtp_buffer_compare_seqnum to_gint16 at *
  omega

theorem pop_tail_times_reverse {α : Type} (n : Nat) (q : List α) :
    (pop_tail_times n q).reverse = q.reverse.drop n := by
  induction n generalizing q with
  | zero => simp [pop_tail_times]
  | succ n ih =>
    simp only [pop_tail_times, g_queue_pop_tail]
    rw [ih, ← List.tail_reverse, List.drop_tail]

theorem pop_tail_times_eq {α : Type} (n : Nat) (q : List α) :
    pop_tail_times n q = (q.reverse.drop n).reverse := by
  rw [← pop_tail_times_reverse, List.reverse_reverse]

/-- The result of `rtp_storage_stream_resize`, when it returns, is the old
stream with a number of entries dropped from the oldest end. -/
theorem resize_eq_some (stream stream1 : RtpStorageStream) (size_time : Nat)
    (h : rtp_storage_stream_resize stream size_time = some stream1) :
    stream1 = { stream with queue :=
      ((stream.queue.reverse).drop
        (resize_scan stream.max_arrival_time size_time stream.queue.reverse 0 0)).reverse } := by
  unfold rtp_storage_stream_resize at h
  split at h
  · exact absurd h (by simp)
  · split at h
    · exact absurd h (by simp)
    · split at h
      · exact absurd h (by simp)
      · simp only [Option.some.injEq] at h
        rw [← h, pop_tail_times_eq]

theorem adjacent_sorted_iff_chain (l : List RtpStorageItem) :
    adjacent_sorted l ↔
      List.Chain' (fun a b => gst_rtp_buffer_compare_seqnum b.seq a.seq ≤ 0) l := by
  induction l with
  | nil => simp [adjacent_sorted]
  | cons a t ih =>
    cases t with
    | nil => simp [adjacent_sorted]
    | cons b rest => simp only [adjacent_sorted, List.chain'_cons, ih]

theorem adjacent_sorted_reverse_iff (q : List RtpStorageItem) :
    adjacent_sorted q.reverse ↔
      List.Chain' (fun n o => gst_rtp_buffer_compare_seqnum n.seq o.seq ≤ 0) q := by
  rw [adjacent_sorted_iff_chain, List.chain'_reverse]
  rfl

theorem add_item_sorted (stream : RtpStorageStream) (buffer : GstBuffer) (pt seq : Nat)
    (h : adjacent_sorted (oldest_to_newest stream)) :
    adjacent_sorted (oldest_to_newest (rtp_storage_stream_add_item stream buffer pt seq)) := by
  unfold oldest_to_newest at *
  rw [adjacent_sorted_reverse_iff] at *
  simp only [rtp_storage_stream_add_item]
  obtain ⟨pre, post, h1, h2, h3, h4⟩ :=
    insert_before_find_split stream.queue (rtp_storage_item_new buffer pt seq)
  rw [h2]
  rw [h1, List.chain'_append] at h
  rw [List.chain'_append]
  refine ⟨h.1, ?_, ?_⟩
  · rw [List.chain'_cons']
    refine ⟨?_, h.2.1⟩
    intro y hy
    exact compare_seqnum_swap _ _ (h4 y hy)
  · intro a ha b hb
    simp only [List.head?_cons, Option.mem_def, Option.some.injEq] at hb
    subst hb
    exact le_of_lt (h3 a (List.mem_of_mem_getLast? ha))

theorem resize_sorted (stream stream1 : RtpStorageStream) (size_time : Nat)
    (hr : rtp_storage_stream_resize stream size_time = some stream1)
    (h : adjacent_sorted (oldest_to_newest stream)) :
    adjacent_sorted (oldest_to_newest stream1) := by
  rw [resize_eq_some stream stream1 size_time hr]
  unfold oldest_to_newest at *
  rw [adjacent_sorted_iff_chain] at *
  simp only [List.reverse_reverse]
  exact List.Chain'.drop h _

theorem resize_and_add_item_sorted (stream stream1 : RtpStorageStream) (size_time : Nat)
    (buffer : GstBuffer) (pt seq : Nat)
    (hr : rtp_storage_stream_resize_and_add_item stream size_time buffer pt seq = some stream1)
    (h : adjacent_sorted (oldest_to_newest stream)) :
    adjacent_sorted (oldest_to_newest stream1) := by
  unfold rtp_storage_stream_resize_and_add_item at hr
  simp only at hr
  split at hr
  · split at hr
    · exact absurd hr (by simp)
    · rename_i stream2 h2
      simp only [Option.some.injEq] at hr
      rw [← hr]
      apply add_item_sorted
      apply resize_sorted _ _ _ h2
      split <;> exact h
  · simp only [Option.some.injEq] at hr
    rw [← hr]
    exact add_item_sorted _ _ _ _ h

/-! ## C1 -/

/-- C1: `rtp_storage_stream_add_item` keeps the sort condition on adjacent pairs
(older `a`, newer `b`: `(gint16) (a.seq - b.seq) <= 0`) of the storage read
oldest to newest; hence every storage reachable from `rtp_storage_stream_new`
by `rtp_storage_stream_add_item` and `rtp_storage_stream_resize_and_add_item`
calls satisfies it; and inserting seq 65535 and then seq 0 into an empty
storage gives the order 65535, 0 from oldest to newest. -/
theorem C1_add_item_preserves_adjacent_sorted :
    (∀ (stream : RtpStorageStream) (buffer : GstBuffer) (pt seq : Nat),
      adjacent_sorted (oldest_to_newest stream) →
      adjacent_sorted (oldest_to_newest (rtp_storage_stream_add_item stream buffer pt seq)))
    ∧ (∀ stream : RtpStorageStream, Reachable stream →
      adjacent_sorted (oldest_to_newest stream))
    ∧ (∀ (ssrc : Nat) (b1 b2 : GstBuffer) (pt1 pt2 : Nat),
      (oldest_to_newest (rtp_storage_stream_add_item
        (rtp_storage_stream_add_item (rtp_storage_stream_new ssrc) b1 pt1 65535) b2 pt2 0)).map
          (fun e => (e.buffer, e.pt, e.seq))
        = [(b1, pt1, 65535), (b2, pt2, 0)]) := by
  refine ⟨add_item_sorted, ?_, ?_⟩
  · intro stream hreach
    induction hreach with
    | new ssrc => simp [rtp_storage_stream_new, oldest_to_newest, adjacent_sorted]
    | add_item s b pt seq _ ih => exact add_item_sorted s b pt seq ih
    | resize_and_add_item s s1 w b pt seq _ hr ih =>
      exact resize_and_add_item_sorted s s1 w b pt seq hr ih
  · intro ssrc b1 b2 pt1 pt2
    simp [rtp_storage_stream_new, rtp_storage_stream_add_item, oldest_to_newest,
      g_queue_find_custom, g_list_find_custom, g_queue_insert_before, g_queue_push_tail,
      rtp_storage_item_new, rtp_storage_item_compare, gst_rtp_buffer_compare_seqnum, to_gint16]

/-- C1 at a concrete storage: 65000, 65535 (oldest to newest) is sorted, and
stays so when seq 2 is inserted. -/
theorem C1_add_item_preserves_adjacent_sorted_witness :
    adjacent_sorted (oldest_to_newest
      { queue := [⟨⟨2, 20, 20⟩, 96, 65535⟩, ⟨⟨1, 10, 10⟩, 96, 65000⟩],
        max_arrival_time := 20, ssrc := 7 })
    ∧ adjacent_sorted (oldest_to_newest (rtp_storage_stream_add_item
      { queue := [⟨⟨2, 20, 20⟩, 96, 65535⟩, ⟨⟨1, 10, 10⟩, 96, 65000⟩],
        max_arrival_time := 20, ssrc := 7 } ⟨3, 30, 30⟩ 96 2)) :=
  ⟨by decide, C1_add_item_preserves_adjacent_sorted.1 _ _ _ _ (by decide)⟩

/-! ## C2 -/

theorem get_redundant_packet_loop_some (lost_seq : Nat) (q : List RtpStorageItem)
    (b : GstBuffer) (h : get_redundant_packet_loop lost_seq q = some b) :
    ∃ e ∈ q, e.seq = lost_seq ∧ e.buffer = b := by
  induction q with
  | nil => simp [get_redundant_packet_loop] at h
  | cons x t ih =>
    unfold get_redundant_packet_loop at h
    by_cases hx : x.seq = lost_seq
    · simp only [hx, if_true, Option.some.injEq] at h
      exact ⟨x, List.mem_cons_self _ _, hx, h⟩
    · simp only [hx, if_false] at h
      obtain ⟨e, he, h1, h2⟩ := ih h
      exact ⟨e, List.mem_cons_of_mem _ he, h1, h2⟩

theorem get_redundant_packet_loop_none (lost_seq : Nat) (q : List RtpStorageItem) :
    get_redundant_packet_loop lost_seq q = none ↔ ∀ e ∈ q, e.seq ≠ lost_seq := by
  induction q with
  | nil => simp [get_redundant_packet_loop]
  | cons x t ih =>
    unfold get_redundant_packet_loop
    by_cases hx : x.seq = lost_seq
    · simp [hx]
    · simp [hx, ih]

/-- The walk of `rtp_storage_stream_get_redundant_packet` over `pre ++ x :: post`
when nothing in `pre` has the sequence number of `x`. -/
theorem get_redundant_packet_loop_split (pre post : List RtpStorageItem) (x : RtpStorageItem)
    (h : ∀ e ∈ pre, e.seq ≠ x.seq) :
    get_redundant_packet_loop x.seq (pre ++ x :: post) = some x.buffer := by
  induction pre with
  | nil => simp [get_redundant_packet_loop]
  | cons y t ih =>
    have hy : y.seq ≠ x.seq := h y (List.mem_cons_self _ _)
    simp only [List.cons_append, get_redundant_packet_loop, hy, if_false]
    exact ih (fun e he => h e (List.mem_cons_of_mem _ he))

/-- C2: `rtp_storage_stream_get_redundant_packet (stream, s)` returns a packet if
and only if some stored entry has seq `s`; a returned packet is the buffer of a
stored entry with seq `s`; otherwise the result is `NULL`. -/
theorem C2_get_redundant_packet_exact (stream : RtpStorageStream) (s : Nat) :
    ((∃ b, rtp_storage_stream_get_redundant_packet stream s = some b) ↔
      ∃ e ∈ stream.queue, e.seq = s)
    ∧ (∀ b, rtp_storage_stream_get_redundant_packet stream s = some b →
      ∃ e ∈ stream.queue, e.seq = s ∧ e.buffer = b)
    ∧ ((¬ ∃ e ∈ stream.queue, e.seq = s) →
      rtp_storage_stream_get_redundant_packet stream s = none) := by
  unfold rtp_storage_stream_get_redundant_packet
  refine ⟨⟨?_, ?_⟩, ?_, ?_⟩
  · rintro ⟨b, hb⟩
    obtain ⟨e, he, h1, _⟩ := get_redundant_packet_loop_some s stream.queue b hb
    exact ⟨e, he, h1⟩
  · rintro ⟨e, he, h1⟩
    cases hg : get_redundant_packet_loop s stream.queue with
    | none => exact absurd h1 ((get_redundant_packet_loop_none s stream.queue).1 hg e he)
    | some b => exact ⟨b, rfl⟩
  · intro b hb
    exact get_redundant_packet_loop_some s stream.queue b hb
  · intro hno
    rw [get_redundant_packet_loop_none]
    intro e he hs
    exact hno ⟨e, he, hs⟩

/-- C2 at a concrete storage: seq 7 is stored (its packet is returned), seq 9 is not. -/
theorem C2_get_redundant_packet_exact_witness :
    rtp_storage_stream_get_redundant_packet
      { queue := [⟨⟨2, 20, 20⟩, 96, 8⟩, ⟨⟨1, 10, 10⟩, 96, 7⟩],
        max_arrival_time := 20, ssrc := 7 } 7 = some ⟨1, 10, 10⟩
    ∧ rtp_storage_stream_get_redundant_packet
      { queue := [⟨⟨2, 20, 20⟩, 96, 8⟩, ⟨⟨1, 10, 10⟩, 96, 7⟩],
        max_arrival_time := 20, ssrc := 7 } 9 = none :=
  ⟨by decide, (C2_get_redundant_packet_exact _ 9).2.2 (by decide)⟩

/-! ## C3 -/

theorem compare_seqnum_neg_ne (a b : Nat) (h : gst_rtp_buffer_compare_seqnum a b < 0) :
    a ≠ b := by
  intro hab
  subst hab
  rw [compare_seqnum_self] at h
  exact absurd h (by decide)

theorem add_item_split (stream : RtpStorageStream) (buffer : GstBuffer) (pt seq : Nat) :
    ∃ pre post, stream.queue = pre ++ post ∧
      (rtp_storage_stream_add_item stream buffer pt seq).queue
        = pre ++ rtp_storage_item_new buffer pt seq :: post ∧
      (∀ e ∈ pre, e.seq ≠ seq) := by
  obtain ⟨pre, post, h1, h2, h3, _⟩ :=
    insert_before_find_split stream.queue (rtp_storage_item_new buffer pt seq)
  refine ⟨pre, post, h1, h2, ?_⟩
  intro e he
  exact compare_seqnum_neg_ne _ _ (h3 e he)

theorem add_item_get_redundant (stream : RtpStorageStream) (buffer : GstBuffer) (pt seq : Nat) :
    rtp_storage_stream_get_redundant_packet
      (rtp_storage_stream_add_item stream buffer pt seq) seq = some buffer := by
  obtain ⟨pre, post, _, h2, h3⟩ := add_item_split stream buffer pt seq
  unfold rtp_storage_stream_get_redundant_packet
  rw [h2]
  exact get_redundant_packet_loop_split pre post (rtp_storage_item_new buffer pt seq) h3

theorem to_gint64_pos (w : Nat) (h0 : 0 < w) (h1 : w < 9223372036854775808) :
    to_gint64 w > 0 := by
  unfold to_gint64
  have : w % 18446744073709551616 = w := Nat.mod_eq_of_lt (by omega)
  rw [this]
  simp only [h1, if_true]
  omega

/-- The assertions of `rtp_storage_stream_resize` hold, and the call returns,
when the high-water mark is valid and the window is positive as a `gint64`. -/
theorem resize_returns (stream : RtpStorageStream) (size_time : Nat)
    (hm : GST_CLOCK_TIME_IS_VALID stream.max_arrival_time = true)
    (h0 : 0 < size_time) (h1 : size_time < 9223372036854775808) :
    ∃ stream1, rtp_storage_stream_resize stream size_time = some stream1 := by
  have hv : GST_CLOCK_TIME_IS_VALID size_time = true := by
    simp [GST_CLOCK_TIME_IS_VALID, GST_CLOCK_TIME_NONE]; omega
  have hp := to_gint64_pos size_time h0 h1
  unfold rtp_storage_stream_resize
  simp [hm, hv, hp]

theorem MAX_valid (a b : Nat) (ha : GST_CLOCK_TIME_IS_VALID a = true)
    (hb : GST_CLOCK_TIME_IS_VALID b = true) : GST_CLOCK_TIME_IS_VALID (MAX a b) = true := by
  unfold MAX; split <;> assumption

theorem resize_and_add_item_returns (stream : RtpStorageStream) (size_time : Nat)
    (buffer : GstBuffer) (pt seq : Nat)
    (h0 : 0 < size_time) (h1 : size_time < 9223372036854775808) :
    ∃ stream1,
      rtp_storage_stream_resize_and_add_item stream size_time buffer pt seq = some stream1 := by
  unfold rtp_storage_stream_resize_and_add_item
  simp only
  by_cases hv : GST_CLOCK_TIME_IS_VALID (GST_BUFFER_DTS_OR_PTS buffer) = true
  · simp only [hv, if_true]
    by_cases hm : GST_CLOCK_TIME_IS_VALID stream.max_arrival_time = true
    · simp only [hm, if_true]
      obtain ⟨s1, hs1⟩ := resize_returns
        { stream with max_arrival_time := MAX stream.max_arrival_time (GST_BUFFER_DTS_OR_PTS buffer) }
        size_time (MAX_valid _ _ hm hv) h0 h1
      rw [hs1]; exact ⟨_, rfl⟩
    · simp only [hm]
      obtain ⟨s1, hs1⟩ := resize_returns
        { stream with max_arrival_time := GST_BUFFER_DTS_OR_PTS buffer }
        size_time hv h0 h1
      simp only [Bool.false_eq_true, if_false]
      rw [hs1]; exact ⟨_, rfl⟩
  · simp only [hv]; exact ⟨_, rfl⟩

theorem resize_and_add_item_get_redundant (stream stream1 : RtpStorageStream) (size_time : Nat)
    (buffer : GstBuffer) (pt seq : Nat)
    (hr : rtp_storage_stream_resize_and_add_item stream size_time buffer pt seq = some stream1) :
    rtp_storage_stream_get_redundant_packet stream1 seq = some buffer := by
  unfold rtp_storage_stream_resize_and_add_item at hr
  simp only at hr
  split at hr
  · split at hr
    · exact absurd hr (by simp)
    · simp only [Option.some.injEq] at hr
      rw [← hr]
      exact add_item_get_redundant _ _ _ _
  · simp only [Option.some.injEq] at hr
    rw [← hr]
    exact add_item_get_redundant _ _ _ _

/-- C3: right after `rtp_storage_stream_add_item (stream, p, pt, s)`, and right
after `rtp_storage_stream_resize_and_add_item (stream, size, p, pt, s)`,
`rtp_storage_stream_get_redundant_packet (stream, s)` returns exactly `p`,
whatever the storage held.  The combined call returns for every window that
passes the assertions of the eviction step (`0 < size` as a `gint64`); the
new entry sits on the head side of every old entry with the same seq. -/
theorem C3_insert_lookup_round_trip :
    (∀ (stream : RtpStorageStream) (p : GstBuffer) (pt s : Nat),
      rtp_storage_stream_get_redundant_packet
        (rtp_storage_stream_add_item stream p pt s) s = some p)
    ∧ (∀ (stream : RtpStorageStream) (size : Nat) (p : GstBuffer) (pt s : Nat),
      0 < size → size < 9223372036854775808 →
      ∃ stream1, rtp_storage_stream_resize_and_add_item stream size p pt s = some stream1
        ∧ rtp_storage_stream_get_redundant_packet stream1 s = some p)
    ∧ (∀ (stream stream1 : RtpStorageStream) (size : Nat) (p : GstBuffer) (pt s : Nat),
      rtp_storage_stream_resize_and_add_item stream size p pt s = some stream1 →
      rtp_storage_stream_get_redundant_packet stream1 s = some p)
    ∧ (∀ (stream : RtpStorageStream) (p : GstBuffer) (pt s : Nat),
      ∃ head_side tail_side, stream.queue = head_side ++ tail_side ∧
        (rtp_storage_stream_add_item stream p pt s).queue
          = head_side ++ rtp_storage_item_new p pt s :: tail_side ∧
        (∀ e ∈ head_side, e.seq ≠ s)) := by
  refine ⟨add_item_get_redundant, ?_, ?_, add_item_split⟩
  · intro stream size p pt s h0 h1
    obtain ⟨s1, hs1⟩ := resize_and_add_item_returns stream size p pt s h0 h1
    exact ⟨s1, hs1, resize_and_add_item_get_redundant stream s1 size p pt s hs1⟩
  · intro stream s1 size p pt s hr
    exact resize_and_add_item_get_redundant stream s1 size p pt s hr

/-- C3 at a concrete call: a storage already holding seq 7 twice, window 10, and
a new packet with seq 7 and arrival time 100 that makes the eviction step
remove the oldest entry. -/
theorem C3_insert_lookup_round_trip_witness :
    (0 < 10 ∧ 10 < 9223372036854775808) ∧
    ∃ stream1, rtp_storage_stream_resize_and_add_item
        { queue := [⟨⟨2, 95, 95⟩, 96, 7⟩, ⟨⟨1, 10, 10⟩, 96, 7⟩],
          max_arrival_time := 95, ssrc := 7 } 10 ⟨3, 100, 100⟩ 96 7 = some stream1
      ∧ rtp_storage_stream_get_redundant_packet stream1 7 = some ⟨3, 100, 100⟩ :=
  ⟨by decide, C3_insert_lookup_round_trip.2.1 _ 10 _ 96 7 (by decide) (by decide)⟩

/-! ## Lemmas on the recovery scan -/

theorem is_closing_cons (pt_fec lost_seq : Nat) (e : RtpStorageItem)
    (newer : List RtpStorageItem) :
    is_closing pt_fec lost_seq (e :: newer) = true ↔
      e.pt = pt_fec ∧ 0 ≤ gst_rtp_buffer_compare_seqnum lost_seq e.seq ∧
        (newer = [] ∨ ∃ n t, newer = n :: t ∧ n.pt ≠ pt_fec) := by
  unfold is_closing gst_rtp_buffer_compare_seqnum
  cases newer with
  | nil => simp
  | cons n t => simp [and_assoc]

theorem recovery_scan_match (pt_fec lost_seq it : Nat) (item : RtpStorageItem)
    (rest : List RtpStorageItem) (st : RecoveryScan) (h : item.seq = lost_seq) :
    recovery_scan pt_fec lost_seq it (item :: rest) st
      = { st with start := some it, end_ := some it, ret_length := 1 } := by
  simp [recovery_scan, h]

theorem recovery_scan_closing (pt_fec lost_seq it : Nat) (item : RtpStorageItem)
    (rest : List RtpStorageItem) (st : RecoveryScan) (h : item.seq ≠ lost_seq)
    (hc : is_closing pt_fec lost_seq (item :: rest) = true) :
    recovery_scan pt_fec lost_seq it (item :: rest) st
      = { st with saw_fec := true, ret_length := st.ret_length + 1, end_ := some it } := by
  rw [is_closing_cons] at hc
  obtain ⟨h1, h2, h3⟩ := hc
  rcases h3 with h3 | ⟨n, t, h3, h4⟩
  · subst h3
    simp [recovery_scan, h, h1, h2]
  · subst h3
    have h5 : ¬ pt_fec = n.pt := fun hh => h4 hh.symm
    simp [recovery_scan, h, h1, h2, h5]

theorem recovery_scan_fec (pt_fec lost_seq it : Nat) (item : RtpStorageItem)
    (rest : List RtpStorageItem) (st : RecoveryScan) (h : item.seq ≠ lost_seq)
    (hp : item.pt = pt_fec) (hc : is_closing pt_fec lost_seq (item :: rest) = false) :
    recovery_scan pt_fec lost_seq it (item :: rest) st
      = recovery_scan pt_fec lost_seq (it + 1) rest
          { st with saw_fec := true, ret_length := st.ret_length + 1 } := by
  have hc1 : ¬ is_closing pt_fec lost_seq (item :: rest) = true := by simp [hc]
  rw [is_closing_cons] at hc1
  by_cases h2 : 0 ≤ gst_rtp_buffer_compare_seqnum lost_seq item.seq
  · cases rest with
    | nil => exact absurd ⟨hp, h2, Or.inl rfl⟩ hc1
    | cons n t =>
      have h5 : pt_fec = n.pt := by
        by_contra h5
        exact hc1 ⟨hp, h2, Or.inr ⟨n, t, rfl, fun hh => h5 hh.symm⟩⟩
      simp [recovery_scan, h, hp, h2, h5.symm]
  · simp [recovery_scan, h, hp, h2]

theorem recovery_scan_media (pt_fec lost_seq it : Nat) (item : RtpStorageItem)
    (rest : List RtpStorageItem) (st : RecoveryScan) (h : item.seq ≠ lost_seq)
    (hp : item.pt ≠ pt_fec) :
    recovery_scan pt_fec lost_seq it (item :: rest) st
      = recovery_scan pt_fec lost_seq (it + 1) rest
          (if st.saw_fec then
            { st with saw_fec := false, start := some it, ret_length := 1 }
           else { st with ret_length := st.ret_length + 1 }) := by
  have hp1 : ¬ pt_fec = item.pt := fun hh => hp hh.symm
  by_cases hs : st.saw_fec = true
  · simp [recovery_scan, h, hp1, hs]
  · simp [recovery_scan, h, hp1, hs]

theorem is_closing_media (pt_fec lost_seq : Nat) (item : RtpStorageItem)
    (rest : List RtpStorageItem) (hp : item.pt ≠ pt_fec) :
    is_closing pt_fec lost_seq (item :: rest) = false := by
  simp [is_closing, hp]

/-- The second loop returns the packets from `start` to `end`, both included. -/
theorem recovery_collect_eq (l : List RtpStorageItem) (it e : Nat) (h : it ≤ e + 1) :
    recovery_collect (if e + 1 < it + l.length then some (e + 1) else none) it l
      = (l.take (e + 1 - it)).map (fun x => x.buffer) := by
  induction l generalizing it with
  | nil => simp [recovery_collect]
  | cons x t ih =>
    by_cases hit : it = e + 1
    · subst hit
      simp [recovery_collect]
    · have hlt : it + 1 ≤ e + 1 := by omega
      have hstop : ¬ ((if e + 1 < it + (x :: t).length then some (e + 1) else none)
          = some it) := by
        split
        · intro hh; simp only [Option.some.injEq] at hh; omega
        · simp
      rw [recovery_collect]
      simp only [hstop, if_false]
      have hcond : (e + 1 < it + (x :: t).length) ↔ (e + 1 < it + 1 + t.length) := by
        simp only [List.length_cons]; omega
      have hstop2 : (if e + 1 < it + (x :: t).length then some (e + 1) else none)
          = (if e + 1 < it + 1 + t.length then some (e + 1) else none) := by
        simp only [hcond]
      rw [hstop2, ih (it + 1) hlt]
      have : e + 1 - it = (e + 1 - (it + 1)) + 1 := by omega
      rw [this, List.take_succ_cons, List.map_cons]

/-- The result of the whole function from the outcome of the first loop. -/
theorem get_packets_of_scan (stream : RtpStorageStream) (pt_fec lost_seq s e : Nat)
    (hs : s ≤ e) (he : e < stream.queue.reverse.length)
    (hend : (recovery_scan pt_fec lost_seq 0 stream.queue.reverse
      { ret_length := 0, end_ := none, start := none, saw_fec := true }).end_ = some e)
    (hstart : (recovery_scan pt_fec lost_seq 0 stream.queue.reverse
      { ret_length := 0, end_ := none, start := none, saw_fec := true }).start.getD e = s) :
    rtp_storage_stream_get_packets_for_recovery stream pt_fec lost_seq
      = some (((stream.queue.reverse.drop s).take (e + 1 - s)).map (fun x => x.buffer)) := by
  unfold rtp_storage_stream_get_packets_for_recovery
  simp only
  generalize recovery_scan pt_fec lost_seq 0 stream.queue.reverse
      { ret_length := 0, end_ := none, start := none, saw_fec := true } = st at hend hstart
  have hlen : s + (stream.queue.reverse.drop s).length = stream.queue.reverse.length := by
    rw [List.length_drop]; omega
  have key := recovery_collect_eq (stream.queue.reverse.drop s) s e (by omega)
  rw [hlen] at key
  rw [hend]
  cases hst : st.start with
  | none =>
    rw [hst] at hstart
    simp only [Option.getD_none] at hstart
    subst hstart
    simp only [Option.isSome_some, Option.isSome_none, Bool.not_false, Bool.and_self, if_true]
    rw [key]
  | some s0 =>
    rw [hst] at hstart
    simp only [Option.getD_some] at hstart
    subst hstart
    simp only [Option.isSome_some, Bool.not_true, Bool.and_false, Bool.false_eq_true, if_false]
    rw [key]

/-- One turn of the first loop on an entry that neither matches nor closes. -/
theorem recovery_scan_step (pt_fec lost_seq it : Nat) (item : RtpStorageItem)
    (rest : List RtpStorageItem) (st : RecoveryScan) (h : item.seq ≠ lost_seq)
    (hc : is_closing pt_fec lost_seq (item :: rest) = false) :
    ∃ st1, recovery_scan pt_fec lost_seq it (item :: rest) st
        = recovery_scan pt_fec lost_seq (it + 1) rest st1 ∧
      st1.end_ = st.end_ ∧ (st1.start = st.start ∨ st1.start = some it) := by
  by_cases hp : item.pt = pt_fec
  · exact ⟨_, recovery_scan_fec pt_fec lost_seq it item rest st h hp hc, rfl, Or.inl rfl⟩
  · refine ⟨_, recovery_scan_media pt_fec lost_seq it item rest st h hp, ?_, ?_⟩
    · split <;> rfl
    · split
      · exact Or.inr rfl
      · exact Or.inl rfl

/-- The first loop stops at the first entry with the lost sequence number when
no closing entry lies on its older side: `start` and `end` both point at it. -/
theorem recovery_scan_reaches_match (pt_fec lost_seq : Nat) (older : List RtpStorageItem)
    (x : RtpStorageItem) (newer : List RtpStorageItem) (it : Nat) (st : RecoveryScan)
    (hx : x.seq = lost_seq) (hP : ∀ p ∈ older, p.seq ≠ lost_seq)
    (hc : ∀ k, k < older.length →
      is_closing pt_fec lost_seq ((older ++ x :: newer).drop k) = false) :
    (recovery_scan pt_fec lost_seq it (older ++ x :: newer) st).end_
        = some (it + older.length) ∧
    (recovery_scan pt_fec lost_seq it (older ++ x :: newer) st).start
        = some (it + older.length) := by
  induction older generalizing it st with
  | nil =>
    rw [List.nil_append, recovery_scan_match pt_fec lost_seq it x newer st hx]
    simp
  | cons p t ih =>
    have hp : p.seq ≠ lost_seq := hP p (List.mem_cons_self _ _)
    have h0 : is_closing pt_fec lost_seq (p :: (t ++ x :: newer)) = false := by
      have := hc 0 (by simp)
      simpa using this
    obtain ⟨st1, hst1, _, _⟩ :=
      recovery_scan_step pt_fec lost_seq it p (t ++ x :: newer) st hp h0
    rw [List.cons_append, hst1]
    have := ih (it + 1) st1 (fun q hq => hP q (List.mem_cons_of_mem _ hq))
      (fun k hk => by
        have := hc (k + 1) (by simp; omega)
        simpa using this)
    simp only [List.length_cons]
    have e1 : it + (t.length + 1) = it + 1 + t.length := by omega
    rw [e1]
    exact this

theorem first_closing_none_iff (pt_fec lost_seq : Nat) (l : List RtpStorageItem) :
    first_closing pt_fec lost_seq l = none ↔
      ∀ k, is_closing pt_fec lost_seq (l.drop k) = false := by
  induction l with
  | nil => simp [first_closing, is_closing]
  | cons x t ih =>
    unfold first_closing
    by_cases hc : is_closing pt_fec lost_seq (x :: t) = true
    · simp only [hc, if_true]
      constructor
      · intro h; exact absurd h (by simp)
      · intro h
        have := h 0
        simp only [List.drop_zero] at this
        rw [hc] at this
        exact absurd this (by simp)
    · simp only [hc, if_false, Option.map_eq_none', ih, Bool.false_eq_true]
      constructor
      · intro h k
        cases k with
        | zero => simpa using hc
        | succ k => simpa using h k
      · intro h k
        simpa using h (k + 1)

theorem first_closing_some (pt_fec lost_seq : Nat) (l : List RtpStorageItem) (j : Nat)
    (h : first_closing pt_fec lost_seq l = some j) :
    j < l.length ∧ is_closing pt_fec lost_seq (l.drop j) = true ∧
      ∀ k, k < j → is_closing pt_fec lost_seq (l.drop k) = false := by
  induction l generalizing j with
  | nil => simp [first_closing] at h
  | cons x t ih =>
    unfold first_closing at h
    by_cases hc : is_closing pt_fec lost_seq (x :: t) = true
    · simp only [hc, if_true, Option.some.injEq] at h
      subst h
      exact ⟨by simp, by simpa using hc, fun k hk => absurd hk (by omega)⟩
    · simp only [hc, if_false, Bool.false_eq_true, Option.map_eq_some'] at h
      obtain ⟨j0, hj0, rfl⟩ := h
      obtain ⟨h1, h2, h3⟩ := ih j0 hj0
      refine ⟨by simp; omega, by simpa using h2, ?_⟩
      intro k hk
      cases k with
      | zero => simpa using hc
      | succ k => simpa using h3 k (by omega)

/-- The first loop leaves `end` unset exactly when no entry has the lost
sequence number and no entry is closing. -/
theorem recovery_scan_end_none_iff (pt_fec lost_seq : Nat) (rest : List RtpStorageItem)
    (it : Nat) (st : RecoveryScan) (hst : st.end_ = none) :
    (recovery_scan pt_fec lost_seq it rest st).end_ = none ↔
      (∀ e ∈ rest, e.seq ≠ lost_seq) ∧ first_closing pt_fec lost_seq rest = none := by
  induction rest generalizing it st with
  | nil => simp [recovery_scan, hst, first_closing]
  | cons x t ih =>
    by_cases hx : x.seq = lost_seq
    · rw [recovery_scan_match pt_fec lost_seq it x t st hx]
      simp [hx]
    · by_cases hc : is_closing pt_fec lost_seq (x :: t) = true
      · rw [recovery_scan_closing pt_fec lost_seq it x t st hx hc]
        simp [first_closing, hc]
      · have hc0 : is_closing pt_fec lost_seq (x :: t) = false := by simpa using hc
        obtain ⟨st1, hst1, he1, _⟩ := recovery_scan_step pt_fec lost_seq it x t st hx hc0
        rw [hst1, ih (it + 1) st1 (he1.trans hst)]
        simp [first_closing, hc0, hx]

/-- Where the first loop leaves `start` and `end`: `end` lies in the part of
the queue that was walked, `start` is never beyond `end`. -/
theorem recovery_scan_bounds (pt_fec lost_seq : Nat) (rest : List RtpStorageItem)
    (it : Nat) (st : RecoveryScan) (hst : st.end_ = none)
    (hs : ∀ s, st.start = some s → s < it) (e : Nat)
    (he : (recovery_scan pt_fec lost_seq it rest st).end_ = some e) :
    it ≤ e ∧ e < it + rest.length ∧
      ∀ s, (recovery_scan pt_fec lost_seq it rest st).start = some s → s ≤ e := by
  induction rest generalizing it st with
  | nil =>
    simp only [recovery_scan] at he
    rw [hst] at he
    exact absurd he (by simp)
  | cons x t ih =>
    by_cases hx : x.seq = lost_seq
    · rw [recovery_scan_match pt_fec lost_seq it x t st hx] at he ⊢
      simp only [Option.some.injEq] at he
      subst he
      refine ⟨le_refl _, by simp, ?_⟩
      intro s hs1
      simp only [Option.some.injEq] at hs1
      omega
    · by_cases hc : is_closing pt_fec lost_seq (x :: t) = true
      · rw [recovery_scan_closing pt_fec lost_seq it x t st hx hc] at he ⊢
        simp only [Option.some.injEq] at he
        subst he
        refine ⟨le_refl _, by simp, ?_⟩
        intro s hs1
        exact le_of_lt (hs s hs1)
      · have hc0 : is_closing pt_fec lost_seq (x :: t) = false := by simpa using hc
        obtain ⟨st1, hst1, he1, hs1⟩ := recovery_scan_step pt_fec lost_seq it x t st hx hc0
        rw [hst1] at he ⊢
        have hs2 : ∀ s, st1.start = some s → s < it + 1 := by
          intro s hs3
          rcases hs1 with hs1 | hs1
          · rw [hs1] at hs3
            have := hs s hs3
            omega
          · rw [hs1] at hs3
            simp only [Option.some.injEq] at hs3
            omega
        obtain ⟨h1, h2, h3⟩ := ih (it + 1) st1 (he1.trans hst) hs2 he
        refine ⟨by omega, by simp only [List.length_cons]; omega, h3⟩

/-! ## C4 -/

/-- C4, as amended: when some stored entry has seq `lost_seq` and no entry
located on the older side of the oldest-positioned such entry is closing
(`pt == pt_fec`, `(gint16) (seq - lost_seq) >= 0`, newer neighbour with
`pt != pt_fec`), `rtp_storage_stream_get_packets_for_recovery` returns exactly
one packet, the packet of that oldest-positioned entry with seq `lost_seq`. -/
theorem C4_present_entry_returned_alone (stream : RtpStorageStream) (pt_fec lost_seq : Nat)
    (older : List RtpStorageItem) (x : RtpStorageItem) (newer : List RtpStorageItem)
    (hsplit : oldest_to_newest stream = older ++ x :: newer)
    (hx : x.seq = lost_seq) (hold : ∀ p ∈ older, p.seq ≠ lost_seq)
    (hc : ∀ k, k < older.length →
      is_closing pt_fec lost_seq ((oldest_to_newest stream).drop k) = false) :
    rtp_storage_stream_get_packets_for_recovery stream pt_fec lost_seq = some [x.buffer] := by
  unfold oldest_to_newest at hsplit hc
  rw [hsplit] at hc
  obtain ⟨h1, h2⟩ := recovery_scan_reaches_match pt_fec lost_seq older x newer 0
    { ret_length := 0, end_ := none, start := none, saw_fec := true } hx hold hc
  rw [← hsplit] at h1 h2
  rw [get_packets_of_scan stream pt_fec lost_seq (0 + older.length) (0 + older.length)
    (le_refl _) (by rw [hsplit]; simp) h1 (by rw [h2]; rfl)]
  rw [hsplit]
  simp

/-- C4 on the storage 0,1,2,3(F),4(F),5(F),6,8,9(F),10(F): the query
`lost_seq = 3` returns the single entry 3. -/
theorem C4_present_entry_returned_alone_witness :
    rtp_storage_stream_get_packets_for_recovery example_storage 100 3
      = some [example_packet 3] :=
  C4_present_entry_returned_alone example_storage 100 3
    [⟨example_packet 0, 96, 0⟩, ⟨example_packet 1, 96, 1⟩, ⟨example_packet 2, 96, 2⟩]
    ⟨example_packet 3, 100, 3⟩
    [⟨example_packet 4, 100, 4⟩, ⟨example_packet 5, 100, 5⟩, ⟨example_packet 6, 96, 6⟩,
      ⟨example_packet 8, 96, 8⟩, ⟨example_packet 9, 100, 9⟩, ⟨example_packet 10, 100, 10⟩]
    (by decide) (by decide) (by decide) (by decide)

/-- C4 fails as stated: in the storage 65000, 0(F), 30000, 60000 (oldest to
newest, built by four insertions) seq 60000 is stored, yet the query
`lost_seq = 60000` returns the two packets 65000 and 0(F): the FEC entry 0 is
not older than 60000 in cyclic order and closes a group first. -/
theorem C4_counterexample :
    (∃ e ∈ wide_storage.queue, e.seq = 60000)
    ∧ rtp_storage_stream_get_packets_for_recovery wide_storage 100 60000
      = some [example_packet 65000, example_packet 0]
    ∧ ¬ (∃ b, rtp_storage_stream_get_packets_for_recovery wide_storage 100 60000 = some [b]
      ∧ ∃ e ∈ wide_storage.queue, e.seq = 60000 ∧ e.buffer = b) := by
  have h : rtp_storage_stream_get_packets_for_recovery wide_storage 100 60000
      = some [example_packet 65000, example_packet 0] := by decide
  refine ⟨by decide, h, ?_⟩
  rintro ⟨b, hb, _⟩
  rw [h] at hb
  simp at hb

/-! ## C5 -/

theorem after_fec_append (pt_fec : Nat) (before : List RtpStorageItem) (x : RtpStorageItem) :
    after_fec pt_fec (before ++ [x]) = decide (x.pt = pt_fec) := by
  simp [after_fec]

theorem last_media_run_start_append_fec (pt_fec : Nat) (before : List RtpStorageItem)
    (x : RtpStorageItem) (hx : x.pt = pt_fec) :
    last_media_run_start pt_fec (before ++ [x]) = last_media_run_start pt_fec before := by
  unfold last_media_run_start
  simp only [List.reverse_append, List.reverse_cons, List.reverse_nil, List.nil_append,
    List.singleton_append]
  simp only [List.takeWhile_cons, List.dropWhile_cons, hx, decide_True, if_true]
  split
  · rfl
  · simp only [List.length_append, List.length_cons, List.length_nil, Option.some.injEq]
    omega

theorem last_media_run_start_append_media (pt_fec : Nat) (before : List RtpStorageItem)
    (x : RtpStorageItem) (hx : x.pt ≠ pt_fec) :
    last_media_run_start pt_fec (before ++ [x])
      = if after_fec pt_fec before then some before.length
        else last_media_run_start pt_fec before := by
  unfold last_media_run_start after_fec
  simp only [List.reverse_append, List.reverse_cons, List.reverse_nil, List.nil_append,
    List.singleton_append]
  have h1 : decide (x.pt = pt_fec) = false := by simp [hx]
  have h2 : decide (x.pt ≠ pt_fec) = true := by simp [hx]
  simp only [List.takeWhile_cons, List.dropWhile_cons, h1, h2, if_true, Bool.false_eq_true,
    if_false]
  have hlen : before.reverse.length = before.length := List.length_reverse before
  generalize before.reverse = r at hlen
  cases r with
  | nil =>
    simp at hlen
    simp [← hlen]
  | cons y t =>
    by_cases hy : y.pt = pt_fec
    · simp [hy, List.takeWhile_cons, ← hlen]
    · have h3 : decide (y.pt ≠ pt_fec) = true := by simp [hy]
      have h4 : decide (y.pt = pt_fec) = false := by simp [hy]
      simp only [List.takeWhile_cons, List.dropWhile_cons, h3, h4, if_true, Bool.false_eq_true,
        if_false, List.isEmpty_cons,
        List.length_append, List.length_cons, List.length_nil, Option.some.injEq]
      simp only [List.length_cons] at hlen
      omega

/-- The first loop on a storage without the lost sequence number: it stops at
the oldest-positioned closing entry, with `start` at the first entry of the
last run of media entries walked before it (or unset). -/
theorem recovery_scan_closes (pt_fec lost_seq : Nat) (rest before : List RtpStorageItem)
    (st : RecoveryScan) (hno : ∀ e ∈ rest, e.seq ≠ lost_seq)
    (hstart : st.start = last_media_run_start pt_fec before)
    (hsaw : st.saw_fec = after_fec pt_fec before) (j : Nat)
    (hj : first_closing pt_fec lost_seq rest = some j) :
    (recovery_scan pt_fec lost_seq before.length rest st).end_ = some (before.length + j) ∧
    (recovery_scan pt_fec lost_seq before.length rest st).start
      = last_media_run_start pt_fec (before ++ rest.take j) := by
  induction rest generalizing before st j with
  | nil => simp [first_closing] at hj
  | cons x t ih =>
    have hx : x.seq ≠ lost_seq := hno x (List.mem_cons_self _ _)
    have hno1 : ∀ e ∈ t, e.seq ≠ lost_seq := fun e he => hno e (List.mem_cons_of_mem _ he)
    by_cases hc : is_closing pt_fec lost_seq (x :: t) = true
    · simp only [first_closing, hc, if_true, Option.some.injEq] at hj
      subst hj
      rw [recovery_scan_closing pt_fec lost_seq _ x t st hx hc]
      simp [hstart]
    · have hc0 : is_closing pt_fec lost_seq (x :: t) = false := by simpa using hc
      simp only [first_closing, hc, if_false, Bool.false_eq_true, Option.map_eq_some'] at hj
      obtain ⟨j0, hj0, rfl⟩ := hj
      have hlen : (before ++ [x]).length = before.length + 1 := by simp
      have happ : before ++ (x :: t).take (j0 + 1) = (before ++ [x]) ++ t.take j0 := by simp
      have hidx : before.length + (j0 + 1) = (before ++ [x]).length + j0 := by
        rw [hlen]; omega
      rw [happ, hidx]
      by_cases hp : x.pt = pt_fec
      · rw [recovery_scan_fec pt_fec lost_seq _ x t st hx hp hc0, ← hlen]
        apply ih (before ++ [x]) _ hno1 _ _ j0 hj0
        · rw [last_media_run_start_append_fec pt_fec before x hp]; exact hstart
        · rw [after_fec_append]; simp [hp]
      · rw [recovery_scan_media pt_fec lost_seq _ x t st hx hp, ← hlen]
        apply ih (before ++ [x]) _ hno1 _ _ j0 hj0
        · rw [last_media_run_start_append_media pt_fec before x hp, ← hsaw]
          split
          · rfl
          · exact hstart
        · rw [after_fec_append]
          by_cases hs : st.saw_fec = true <;> simp [hs, hp]

theorem last_media_run_start_le (pt_fec : Nat) (before : List RtpStorageItem) (s : Nat)
    (h : last_media_run_start pt_fec before = some s) : s ≤ before.length := by
  unfold last_media_run_start at h
  simp only at h
  split at h
  · exact absurd h (by simp)
  · simp only [Option.some.injEq] at h
    omega

theorem group_start_le (pt_fec : Nat) (entries : List RtpStorageItem) (j : Nat)
    (hj : j ≤ entries.length) : group_start pt_fec entries j ≤ j := by
  unfold group_start
  cases h : last_media_run_start pt_fec (entries.take j) with
  | none => simp
  | some s =>
    have := last_media_run_start_le pt_fec _ s h
    simp only [List.length_take] at this
    simp only [Option.getD_some]
    omega

/-- Recovery-group extraction against the specification, for a storage that
does not hold the lost sequence number. -/
theorem get_packets_eq_spec (stream : RtpStorageStream) (pt_fec lost_seq : Nat)
    (hno : ∀ e ∈ stream.queue, e.seq ≠ lost_seq) :
    rtp_storage_stream_get_packets_for_recovery stream pt_fec lost_seq
      = spec_recovery_group pt_fec lost_seq (oldest_to_newest stream) := by
  have hno1 : ∀ e ∈ stream.queue.reverse, e.seq ≠ lost_seq :=
    fun e he => hno e (List.mem_reverse.1 he)
  unfold spec_recovery_group oldest_to_newest
  cases hj : first_closing pt_fec lost_seq stream.queue.reverse with
  | none =>
    have hend := (recovery_scan_end_none_iff pt_fec lost_seq stream.queue.reverse 0
      { ret_length := 0, end_ := none, start := none, saw_fec := true } rfl).2 ⟨hno1, hj⟩
    unfold rtp_storage_stream_get_packets_for_recovery
    simp only [hend]
    simp
  | some j =>
    obtain ⟨hlt, _, _⟩ := first_closing_some pt_fec lost_seq _ j hj
    obtain ⟨h1, h2⟩ := recovery_scan_closes pt_fec lost_seq stream.queue.reverse []
      { ret_length := 0, end_ := none, start := none, saw_fec := true } hno1 rfl rfl j hj
    simp only [List.length_nil, Nat.zero_add, List.nil_append] at h1 h2
    have hle := group_start_le pt_fec stream.queue.reverse j (le_of_lt hlt)
    rw [get_packets_of_scan stream pt_fec lost_seq (group_start pt_fec stream.queue.reverse j) j
      hle hlt h1 (by rw [h2]; rfl)]

theorem first_closing_eq_some_iff (pt_fec lost_seq : Nat) (l : List RtpStorageItem) (j : Nat) :
    first_closing pt_fec lost_seq l = some j ↔
      (j < l.length ∧ is_closing pt_fec lost_seq (l.drop j) = true ∧
        ∀ k, k < j → is_closing pt_fec lost_seq (l.drop k) = false) := by
  constructor
  · exact first_closing_some pt_fec lost_seq l j
  · rintro ⟨_, h2, h3⟩
    cases h : first_closing pt_fec lost_seq l with
    | none =>
      have := (first_closing_none_iff pt_fec lost_seq l).1 h j
      rw [h2] at this
      exact absurd this (by simp)
    | some j1 =>
      obtain ⟨_, h5, h6⟩ := first_closing_some pt_fec lost_seq l j1 h
      rcases Nat.lt_trichotomy j1 j with hlt | heq | hgt
      · have := h3 j1 hlt
        rw [h5] at this
        exact absurd this (by simp)
      · rw [heq]
      · have := h6 j hgt
        rw [h2] at this
        exact absurd this (by simp)

theorem last_media_run_start_append_fec_run (pt_fec : Nat) (before fec : List RtpStorageItem)
    (hf : ∀ e ∈ fec, e.pt = pt_fec) :
    last_media_run_start pt_fec (before ++ fec) = last_media_run_start pt_fec before := by
  induction fec generalizing before with
  | nil => simp
  | cons x t ih =>
    have : before ++ x :: t = (before ++ [x]) ++ t := by simp
    rw [this, ih (before ++ [x]) (fun e he => hf e (List.mem_cons_of_mem _ he)),
      last_media_run_start_append_fec pt_fec before x (hf x (List.mem_cons_self _ _))]

theorem last_media_run_start_append_media_run (pt_fec : Nat)
    (before media : List RtpStorageItem) (hm : ∀ e ∈ media, e.pt ≠ pt_fec)
    (hb : after_fec pt_fec before = false) :
    last_media_run_start pt_fec (before ++ media) = last_media_run_start pt_fec before := by
  induction media generalizing before with
  | nil => simp
  | cons x t ih =>
    have hx : x.pt ≠ pt_fec := hm x (List.mem_cons_self _ _)
    have : before ++ x :: t = (before ++ [x]) ++ t := by simp
    rw [this, ih (before ++ [x]) (fun e he => hm e (List.mem_cons_of_mem _ he))
      (by rw [after_fec_append]; simp [hx]),
      last_media_run_start_append_media pt_fec before x hx, hb]
    simp

theorem last_media_run_start_nil (pt_fec : Nat) : last_media_run_start pt_fec [] = none := by
  simp [last_media_run_start]

/-- With no media entry before `j`, the older boundary is `j` itself. -/
theorem group_start_no_media (pt_fec : Nat) (entries : List RtpStorageItem) (j : Nat)
    (hf : ∀ e ∈ entries.take j, e.pt = pt_fec) : group_start pt_fec entries j = j := by
  unfold group_start
  have := last_media_run_start_append_fec_run pt_fec [] (entries.take j) hf
  rw [List.nil_append, last_media_run_start_nil] at this
  rw [this]
  rfl

/-- When the entries before `j` are `rest ++ media ++ fec`, with `media` a
non-empty run of media entries, `fec` a run of FEC entries and `rest` empty or
ending with an FEC entry, the older boundary is the first entry of `media`. -/
theorem group_start_of_runs (pt_fec : Nat) (entries : List RtpStorageItem) (j : Nat)
    (rest media fec : List RtpStorageItem) (hsplit : entries.take j = rest ++ media ++ fec)
    (hne : media ≠ []) (hm : ∀ e ∈ media, e.pt ≠ pt_fec) (hf : ∀ e ∈ fec, e.pt = pt_fec)
    (hr : ∀ p ∈ rest.getLast?, p.pt = pt_fec) :
    group_start pt_fec entries j = rest.length := by
  unfold group_start
  rw [hsplit, last_media_run_start_append_fec_run pt_fec _ fec hf]
  cases media with
  | nil => exact absurd rfl hne
  | cons x t =>
    have hx : x.pt ≠ pt_fec := hm x (List.mem_cons_self _ _)
    have h1 : rest ++ x :: t = (rest ++ [x]) ++ t := by simp
    have hafter : after_fec pt_fec rest = true := by
      unfold after_fec
      rw [List.getLast?_eq_head?_reverse] at hr
      cases hrev : rest.reverse with
      | nil => rfl
      | cons y u =>
        rw [hrev] at hr
        simpa using hr y (by simp)
    rw [h1, last_media_run_start_append_media_run pt_fec (rest ++ [x]) t
      (fun e he => hm e (List.mem_cons_of_mem _ he)) (by rw [after_fec_append]; simp [hx]),
      last_media_run_start_append_media pt_fec rest x hx, hafter]
    rfl

/-- C5: on a storage `L` (oldest to newest) that does not hold `lost_seq`, when a
closing entry exists and `j` is the oldest-positioned one,
`rtp_storage_stream_get_packets_for_recovery` returns, oldest to newest,
exactly the packets of the run `L[i..j]`, where `i` is the first entry of the
last maximal run of media entries located before `j`, or `j` when no media
entry is located before `j`.  The further parts pin `j` and `i` down in those
words, and the last one is the example: media 0,1,2, FEC 3,4,5, media 6,8, FEC
9,10 and `lost_seq = 7` give the packets 6, 8, 9(F), 10(F). -/
theorem C5_recovery_group_is_bracketing_chunk :
    (∀ (stream : RtpStorageStream) (pt_fec lost_seq j : Nat),
      (∀ e ∈ stream.queue, e.seq ≠ lost_seq) →
      first_closing pt_fec lost_seq (oldest_to_newest stream) = some j →
      rtp_storage_stream_get_packets_for_recovery stream pt_fec lost_seq
        = some ((((oldest_to_newest stream).drop
            (group_start pt_fec (oldest_to_newest stream) j)).take
            (j + 1 - group_start pt_fec (oldest_to_newest stream) j)).map
              (fun e => e.buffer)))
    ∧ (∀ (pt_fec lost_seq : Nat) (entries : List RtpStorageItem) (j : Nat),
      first_closing pt_fec lost_seq entries = some j ↔
        (j < entries.length ∧ is_closing pt_fec lost_seq (entries.drop j) = true ∧
          ∀ k, k < j → is_closing pt_fec lost_seq (entries.drop k) = false))
    ∧ (∀ (pt_fec : Nat) (entries : List RtpStorageItem) (j : Nat),
      (∀ e ∈ entries.take j, e.pt = pt_fec) → group_start pt_fec entries j = j)
    ∧ (∀ (pt_fec : Nat) (entries : List RtpStorageItem) (j : Nat)
        (rest media fec : List RtpStorageItem),
      entries.take j = rest ++ media ++ fec → media ≠ [] →
      (∀ e ∈ media, e.pt ≠ pt_fec) → (∀ e ∈ fec, e.pt = pt_fec) →
      (∀ p ∈ rest.getLast?, p.pt = pt_fec) →
      group_start pt_fec entries j = rest.length)
    ∧ rtp_storage_stream_get_packets_for_recovery example_storage 100 7
        = some [example_packet 6, example_packet 8, example_packet 9, example_packet 10] := by
  refine ⟨?_, first_closing_eq_some_iff, group_start_no_media, group_start_of_runs, by decide⟩
  intro stream pt_fec lost_seq j hno hj
  rw [get_packets_eq_spec stream pt_fec lost_seq hno]
  unfold spec_recovery_group
  rw [hj]

/-- C5 on the example storage and `lost_seq = 7`: the oldest-positioned closing
entry is at position 9 (seq 10), the group starts at position 6 (seq 6). -/
theorem C5_recovery_group_is_bracketing_chunk_witness :
    first_closing 100 7 (oldest_to_newest example_storage) = some 9
    ∧ group_start 100 (oldest_to_newest example_storage) 9 = 6
    ∧ rtp_storage_stream_get_packets_for_recovery example_storage 100 7
      = some ((((oldest_to_newest example_storage).drop
          (group_start 100 (oldest_to_newest example_storage) 9)).take
          (9 + 1 - group_start 100 (oldest_to_newest example_storage) 9)).map
            (fun e => e.buffer)) :=
  ⟨by decide, by decide,
    C5_recovery_group_is_bracketing_chunk.1 example_storage 100 7 9 (by decide) (by decide)⟩

/-! ## C6 -/

theorem get_packets_none_iff_end (stream : RtpStorageStream) (pt_fec lost_seq : Nat) :
    rtp_storage_stream_get_packets_for_recovery stream pt_fec lost_seq = none ↔
      (recovery_scan pt_fec lost_seq 0 stream.queue.reverse
        { ret_length := 0, end_ := none, start := none, saw_fec := true }).end_ = none := by
  unfold rtp_storage_stream_get_packets_for_recovery
  simp only
  generalize recovery_scan pt_fec lost_seq 0 stream.queue.reverse
      { ret_length := 0, end_ := none, start := none, saw_fec := true } = st
  cases he : st.end_ with
  | none =>
    cases hs : st.start <;> simp
  | some e =>
    cases hs : st.start <;> simp

/-- Some position of the list holds a closing entry, said with the entry and
its neighbours. -/
theorem exists_closing_iff (pt_fec lost_seq : Nat) (l : List RtpStorageItem) :
    (∃ k, is_closing pt_fec lost_seq (l.drop k) = true) ↔
      ∃ older e newer, l = older ++ e :: newer ∧ e.pt = pt_fec ∧
        0 ≤ to_gint16 ((e.seq : Int) - (lost_seq : Int)) ∧
        (newer = [] ∨ ∃ n t, newer = n :: t ∧ n.pt ≠ pt_fec) := by
  constructor
  · rintro ⟨k, hk⟩
    cases hd : l.drop k with
    | nil => rw [hd] at hk; simp [is_closing] at hk
    | cons e newer =>
      rw [hd, is_closing_cons] at hk
      refine ⟨l.take k, e, newer, ?_, hk.1, hk.2.1, hk.2.2⟩
      rw [← hd, List.take_append_drop]
  · rintro ⟨older, e, newer, hl, h1, h2, h3⟩
    refine ⟨older.length, ?_⟩
    rw [hl, List.drop_left, is_closing_cons]
    exact ⟨h1, h2, h3⟩

theorem get_packets_none_iff (stream : RtpStorageStream) (pt_fec lost_seq : Nat) :
    rtp_storage_stream_get_packets_for_recovery stream pt_fec lost_seq = none ↔
      ((∀ e ∈ stream.queue, e.seq ≠ lost_seq) ∧
        ¬ ∃ older e newer, oldest_to_newest stream = older ++ e :: newer ∧ e.pt = pt_fec ∧
          0 ≤ to_gint16 ((e.seq : Int) - (lost_seq : Int)) ∧
          (newer = [] ∨ ∃ n t, newer = n :: t ∧ n.pt ≠ pt_fec)) := by
  rw [get_packets_none_iff_end, recovery_scan_end_none_iff _ _ _ _ _ rfl,
    first_closing_none_iff, ← exists_closing_iff]
  unfold oldest_to_newest
  constructor
  · rintro ⟨h1, h2⟩
    refine ⟨fun e he => h1 e (List.mem_reverse.2 he), ?_⟩
    rintro ⟨k, hk⟩
    rw [h2 k] at hk
    exact absurd hk (by simp)
  · rintro ⟨h1, h2⟩
    refine ⟨fun e he => h1 e (List.mem_reverse.1 he), ?_⟩
    intro k
    by_contra hk
    exact h2 ⟨k, by simpa using hk⟩

theorem get_packets_nonempty (stream : RtpStorageStream) (pt_fec lost_seq : Nat)
    (l : List GstBuffer)
    (h : rtp_storage_stream_get_packets_for_recovery stream pt_fec lost_seq = some l) :
    l ≠ [] := by
  cases he : (recovery_scan pt_fec lost_seq 0 stream.queue.reverse
      { ret_length := 0, end_ := none, start := none, saw_fec := true }).end_ with
  | none =>
    rw [(get_packets_none_iff_end stream pt_fec lost_seq).2 he] at h
    exact absurd h (by simp)
  | some e =>
    obtain ⟨_, h2, h3⟩ := recovery_scan_bounds pt_fec lost_seq stream.queue.reverse 0
      { ret_length := 0, end_ := none, start := none, saw_fec := true } rfl
      (fun s hs => absurd hs (by simp)) e he
    simp only [Nat.zero_add] at h2
    have hs : ((recovery_scan pt_fec lost_seq 0 stream.queue.reverse
        { ret_length := 0, end_ := none, start := none, saw_fec := true }).start.getD e) ≤ e := by
      cases hst : (recovery_scan pt_fec lost_seq 0 stream.queue.reverse
        { ret_length := 0, end_ := none, start := none, saw_fec := true }).start with
      | none => simp
      | some s => simpa using h3 s hst
    rw [get_packets_of_scan stream pt_fec lost_seq _ e hs h2 he rfl] at h
    simp only [Option.some.injEq] at h
    intro hl
    rw [hl] at h
    have hlen := congrArg List.length h
    simp only [List.length_map, List.length_take, List.length_drop, List.length_nil] at hlen
    omega

/-- C6: `rtp_storage_stream_get_packets_for_recovery` returns `NULL` if and only
if no stored entry has seq `lost_seq` and no stored entry `e` has
`e.pt == pt_fec` and `(gint16) (e.seq - lost_seq) >= 0` while being the newest
entry or having a media entry as newer neighbour.  In particular it returns
`NULL` on an empty storage and on a storage of media entries none of which has
seq `lost_seq`; and a list it returns is never empty. -/
theorem C6_recovery_fails_iff_nothing_to_return :
    (∀ (stream : RtpStorageStream) (pt_fec lost_seq : Nat),
      rtp_storage_stream_get_packets_for_recovery stream pt_fec lost_seq = none ↔
        ((∀ e ∈ stream.queue, e.seq ≠ lost_seq) ∧
          ¬ ∃ older e newer, oldest_to_newest stream = older ++ e :: newer ∧ e.pt = pt_fec ∧
            0 ≤ to_gint16 ((e.seq : Int) - (lost_seq : Int)) ∧
            (newer = [] ∨ ∃ n t, newer = n :: t ∧ n.pt ≠ pt_fec)))
    ∧ (∀ (stream : RtpStorageStream) (pt_fec lost_seq : Nat), stream.queue = [] →
      rtp_storage_stream_get_packets_for_recovery stream pt_fec lost_seq = none)
    ∧ (∀ (stream : RtpStorageStream) (pt_fec lost_seq : Nat),
      (∀ e ∈ stream.queue, e.pt ≠ pt_fec ∧ e.seq ≠ lost_seq) →
      rtp_storage_stream_get_packets_for_recovery stream pt_fec lost_seq = none)
    ∧ (∀ (stream : RtpStorageStream) (pt_fec lost_seq : Nat) (l : List GstBuffer),
      rtp_storage_stream_get_packets_for_recovery stream pt_fec lost_seq = some l → l ≠ []) := by
  refine ⟨get_packets_none_iff, ?_, ?_, get_packets_nonempty⟩
  · intro stream pt_fec lost_seq hq
    rw [get_packets_none_iff]
    unfold oldest_to_newest
    rw [hq]
    refine ⟨by simp, ?_⟩
    rintro ⟨older, e, newer, hl, _⟩
    simp at hl
  · intro stream pt_fec lost_seq hall
    rw [get_packets_none_iff]
    refine ⟨fun e he => (hall e he).2, ?_⟩
    rintro ⟨older, e, newer, hl, hpt, _⟩
    have hmem : e ∈ stream.queue := by
      have : e ∈ oldest_to_newest stream := by rw [hl]; simp
      exact List.mem_reverse.1 this
    exact (hall e hmem).1 hpt

/-- C6 on concrete storages: a storage of two media entries 1, 2 gives `NULL`
for `lost_seq = 3`, and the list returned for the example storage and
`lost_seq = 7` is not empty. -/
theorem C6_recovery_fails_iff_nothing_to_return_witness :
    rtp_storage_stream_get_packets_for_recovery
      { queue := [⟨example_packet 2, 96, 2⟩, ⟨example_packet 1, 96, 1⟩],
        max_arrival_time := 1002, ssrc := 1 } 100 3 = none
    ∧ [example_packet 6, example_packet 8, example_packet 9, example_packet 10] ≠ [] :=
  ⟨C6_recovery_fails_iff_nothing_to_return.2.2.1 _ 100 3 (by decide),
    C6_recovery_fails_iff_nothing_to_return.2.2.2 example_storage 100 7 _ (by decide)⟩

/-! ## Lemmas on the eviction scan -/

theorem resize_scan_untimed (m w : Nat) (x : RtpStorageItem) (rest : List RtpStorageItem)
    (i t : Nat) (hx : ¬ has_arrival_time x) :
    resize_scan m w (x :: rest) i t = resize_scan m w rest (i + 1) t := by
  unfold has_arrival_time at hx
  simp [resize_scan, hx]

theorem resize_scan_too_old (m w : Nat) (x : RtpStorageItem) (rest : List RtpStorageItem)
    (i t : Nat) (hx : too_old m w x) :
    resize_scan m w (x :: rest) i t = resize_scan m w rest (i + 1) (i + 1) := by
  unfold too_old has_arrival_time at hx
  simp [resize_scan, hx.1, hx.2]

theorem resize_scan_young (m w : Nat) (x : RtpStorageItem) (rest : List RtpStorageItem)
    (i t : Nat) (hv : has_arrival_time x)
    (hy : guint64_sub m (GST_BUFFER_DTS_OR_PTS x.buffer) ≤ w) :
    resize_scan m w (x :: rest) i t = t := by
  unfold has_arrival_time at hv
  have : ¬ guint64_sub m (GST_BUFFER_DTS_OR_PTS x.buffer) > w := by omega
  simp [resize_scan, hv, this]

/-- The three ways an entry can meet the scan. -/
theorem entry_cases (m w : Nat) (x : RtpStorageItem) :
    ¬ has_arrival_time x ∨ too_old m w x ∨
      (has_arrival_time x ∧ guint64_sub m (GST_BUFFER_DTS_OR_PTS x.buffer) ≤ w) := by
  by_cases hv : has_arrival_time x
  · by_cases ho : guint64_sub m (GST_BUFFER_DTS_OR_PTS x.buffer) > w
    · exact Or.inr (Or.inl ⟨hv, ho⟩)
    · exact Or.inr (Or.inr ⟨hv, by omega⟩)
  · exact Or.inl hv

theorem settled_cons_untimed (m w : Nat) (x : RtpStorageItem) (rest : List RtpStorageItem)
    (hx : ¬ has_arrival_time x) (h : settled m w rest) : settled m w (x :: rest) := by
  obtain ⟨u, tl, h1, h2, h3⟩ := h
  refine ⟨x :: u, tl, by simp [h1], ?_, h3⟩
  intro e he
  rcases List.mem_cons.1 he with rfl | he
  · exact hx
  · exact h2 e he

theorem resize_scan_settled (m w : Nat) (l : List RtpStorageItem) (i t : Nat)
    (h : settled m w l) : resize_scan m w l i t = t := by
  obtain ⟨u, tl, h1, h2, h3⟩ := h
  subst h1
  induction u generalizing i with
  | nil =>
    cases tl with
    | nil => simp [resize_scan]
    | cons y r =>
      have := h3 y (by simp)
      exact resize_scan_young m w y r i t this.1 this.2
  | cons x u ih =>
    rw [List.cons_append, resize_scan_untimed m w x _ i t (h2 x (List.mem_cons_self _ _))]
    exact ih (i + 1) (fun e he => h2 e (List.mem_cons_of_mem _ he))

/-- What the first loop of `rtp_storage_stream_resize` computes: either nothing
is to be removed and the storage is settled, or the count reaches just past
the last too-old entry met before the first young-enough one; everything up to
it is too old or has no timestamp, and what follows is settled. -/
theorem resize_scan_decomp (m w : Nat) (l : List RtpStorageItem) (i t : Nat) :
    (resize_scan m w l i t = t ∧ settled m w l) ∨
    (∃ a x b, l = a ++ x :: b ∧ too_old m w x ∧
      (∀ e ∈ a, has_arrival_time e → too_old m w e) ∧ settled m w b ∧
      resize_scan m w l i t = i + a.length + 1) := by
  induction l generalizing i t with
  | nil => exact Or.inl ⟨by simp [resize_scan], [], [], rfl, by simp, by simp⟩
  | cons x rest ih =>
    rcases entry_cases m w x with hx | hx | hx
    · rw [resize_scan_untimed m w x rest i t hx]
      rcases ih (i + 1) t with ⟨h1, h2⟩ | ⟨a, y, b, h1, h2, h3, h4, h5⟩
      · exact Or.inl ⟨h1, settled_cons_untimed m w x rest hx h2⟩
      · refine Or.inr ⟨x :: a, y, b, by simp [h1], h2, ?_, h4, ?_⟩
        · intro e he hv
          rcases List.mem_cons.1 he with rfl | he
          · exact absurd hv hx
          · exact h3 e he hv
        · rw [h5]; simp only [List.length_cons]; omega
    · rw [resize_scan_too_old m w x rest i t hx]
      rcases ih (i + 1) (i + 1) with ⟨h1, h2⟩ | ⟨a, y, b, h1, h2, h3, h4, h5⟩
      · exact Or.inr ⟨[], x, rest, rfl, hx, by simp, h2, by rw [h1]; simp⟩
      · refine Or.inr ⟨x :: a, y, b, by simp [h1], h2, ?_, h4, ?_⟩
        · intro e he hv
          rcases List.mem_cons.1 he with rfl | he
          · exact hx
          · exact h3 e he hv
        · rw [h5]; simp only [List.length_cons]; omega
    · rw [resize_scan_young m w x rest i t hx.1 hx.2]
      exact Or.inl ⟨rfl, [], x :: rest, rfl, by simp, by
        intro y hy
        simp only [List.head?_cons, Option.mem_def, Option.some.injEq] at hy
        subst hy
        exact hx⟩

/-- The outcome of `rtp_storage_stream_resize` on the storage read oldest to
newest: a run `removed` goes, empty or ending with a too-old entry, whose
timestamped entries are all too old; what is kept is settled. -/
theorem resize_removed_kept (stream stream1 : RtpStorageStream) (w : Nat)
    (h : rtp_storage_stream_resize stream w = some stream1) :
    stream1.max_arrival_time = stream.max_arrival_time ∧ stream1.ssrc = stream.ssrc ∧
    ∃ removed, oldest_to_newest stream = removed ++ oldest_to_newest stream1 ∧
      removed.length = resize_scan stream.max_arrival_time w stream.queue.reverse 0 0 ∧
      (∀ e ∈ removed, has_arrival_time e → too_old stream.max_arrival_time w e) ∧
      (removed = [] ∨ ∃ a x, removed = a ++ [x] ∧ too_old stream.max_arrival_time w x) ∧
      settled stream.max_arrival_time w (oldest_to_newest stream1) := by
  have hs := resize_eq_some stream stream1 w h
  refine ⟨by rw [hs], by rw [hs], ?_⟩
  have hq : oldest_to_newest stream1 = stream.queue.reverse.drop
      (resize_scan stream.max_arrival_time w stream.queue.reverse 0 0) := by
    rw [hs]; simp [oldest_to_newest]
  rw [hq]
  unfold oldest_to_newest
  rcases resize_scan_decomp stream.max_arrival_time w stream.queue.reverse 0 0 with
    ⟨h1, h2⟩ | ⟨a, x, b, h1, h2, h3, h4, h5⟩
  · rw [h1]
    exact ⟨[], by simp, by simp, by simp, Or.inl rfl, by simpa using h2⟩
  · rw [h5, h1]
    have hd : (a ++ x :: b).drop (0 + a.length + 1) = b := by
      have : a ++ x :: b = (a ++ [x]) ++ b := by simp
      rw [this]
      have hl : 0 + a.length + 1 = (a ++ [x]).length := by simp
      rw [hl, List.drop_left]
    rw [hd]
    refine ⟨a ++ [x], by simp, by simp, ?_, Or.inr ⟨a, x, rfl, h2⟩, h4⟩
    intro e he hv
    rcases List.mem_append.1 he with he | he
    · exact h3 e he hv
    · simp only [List.mem_singleton] at he
      subst he
      exact h2

theorem resize_scan_ge (m w : Nat) (l : List RtpStorageItem) (i t : Nat) (h : t ≤ i) :
    t ≤ resize_scan m w l i t := by
  induction l generalizing i t with
  | nil => simp [resize_scan]
  | cons x rest ih =>
    rcases entry_cases m w x with hx | hx | hx
    · rw [resize_scan_untimed m w x rest i t hx]; exact ih (i + 1) t (by omega)
    · rw [resize_scan_too_old m w x rest i t hx]
      have := ih (i + 1) (i + 1) (le_refl _)
      omega
    · rw [resize_scan_young m w x rest i t hx.1 hx.2]

/-- A young-enough entry bounds the count: the scan never counts it. -/
theorem resize_scan_le_of_young (m w : Nat) (older : List RtpStorageItem) (e : RtpStorageItem)
    (newer : List RtpStorageItem) (i t : Nat) (hv : has_arrival_time e)
    (hy : guint64_sub m (GST_BUFFER_DTS_OR_PTS e.buffer) ≤ w) :
    resize_scan m w (older ++ e :: newer) i t ≤ max t (i + older.length) := by
  induction older generalizing i t with
  | nil =>
    rw [List.nil_append, resize_scan_young m w e newer i t hv hy]
    exact le_max_left _ _
  | cons x rest ih =>
    rw [List.cons_append]
    rcases entry_cases m w x with hx | hx | hx
    · rw [resize_scan_untimed m w x _ i t hx]
      have := ih (i + 1) t
      simp only [List.length_cons]
      omega
    · rw [resize_scan_too_old m w x _ i t hx]
      have := ih (i + 1) (i + 1)
      simp only [List.length_cons]
      omega
    · rw [resize_scan_young m w x _ i t hx.1 hx.2]
      exact le_max_left _ _

/-- An entry without timestamp that has no too-old entry on its newer side
bounds the count. -/
theorem resize_scan_le_of_untimed (m w : Nat) (older : List RtpStorageItem)
    (e : RtpStorageItem) (newer : List RtpStorageItem) (i t : Nat)
    (hv : ¬ has_arrival_time e) (hn : ∀ y ∈ newer, ¬ too_old m w y) :
    resize_scan m w (older ++ e :: newer) i t ≤ max t (i + older.length) := by
  have hnone : ∀ (l : List RtpStorageItem) (i t : Nat), (∀ y ∈ l, ¬ too_old m w y) →
      resize_scan m w l i t = t := by
    intro l
    induction l with
    | nil => intro i t _; simp [resize_scan]
    | cons x rest ih =>
      intro i t hl
      rcases entry_cases m w x with hx | hx | hx
      · rw [resize_scan_untimed m w x rest i t hx]
        exact ih (i + 1) t (fun y hy => hl y (List.mem_cons_of_mem _ hy))
      · exact absurd hx (hl x (List.mem_cons_self _ _))
      · exact resize_scan_young m w x rest i t hx.1 hx.2
  induction older generalizing i t with
  | nil =>
    rw [List.nil_append, resize_scan_untimed m w e newer i t hv, hnone newer (i + 1) t hn]
    exact le_max_left _ _
  | cons x rest ih =>
    rw [List.cons_append]
    rcases entry_cases m w x with hx | hx | hx
    · rw [resize_scan_untimed m w x _ i t hx]
      have := ih (i + 1) t
      simp only [List.length_cons]
      omega
    · rw [resize_scan_too_old m w x _ i t hx]
      have := ih (i + 1) (i + 1)
      simp only [List.length_cons]
      omega
    · rw [resize_scan_young m w x _ i t hx.1 hx.2]
      exact le_max_left _ _

/-- A too-old entry whose older side holds only too-old entries and entries
without timestamp is counted. -/
theorem resize_scan_ge_of_too_old (m w : Nat) (older : List RtpStorageItem)
    (e : RtpStorageItem) (newer : List RtpStorageItem) (i t : Nat)
    (he : too_old m w e) (ho : ∀ y ∈ older, has_arrival_time y → too_old m w y) :
    i + older.length + 1 ≤ resize_scan m w (older ++ e :: newer) i t := by
  induction older generalizing i t with
  | nil =>
    rw [List.nil_append, resize_scan_too_old m w e newer i t he]
    have := resize_scan_ge m w newer (i + 1) (i + 1) (le_refl _)
    simp only [List.length_nil]
    omega
  | cons x rest ih =>
    rw [List.cons_append]
    have hrest : ∀ y ∈ rest, has_arrival_time y → too_old m w y :=
      fun y hy => ho y (List.mem_cons_of_mem _ hy)
    by_cases hx : has_arrival_time x
    · rw [resize_scan_too_old m w x _ i t (ho x (List.mem_cons_self _ _) hx)]
      have := ih (i + 1) (i + 1) hrest
      simp only [List.length_cons]
      omega
    · rw [resize_scan_untimed m w x _ i t hx]
      have := ih (i + 1) t hrest
      simp only [List.length_cons]
      omega

/-- The storage kept by `rtp_storage_stream_resize`, read oldest to newest. -/
theorem resize_kept_eq (stream stream1 : RtpStorageStream) (w : Nat)
    (h : rtp_storage_stream_resize stream w = some stream1) :
    oldest_to_newest stream1 = (oldest_to_newest stream).drop
      (resize_scan stream.max_arrival_time w (oldest_to_newest stream) 0 0) := by
  rw [resize_eq_some stream stream1 w h]
  simp [oldest_to_newest]

/-- An entry at a position the count does not reach is kept, with all its
newer side. -/
theorem kept_of_count_le (l older : List RtpStorageItem) (e : RtpStorageItem)
    (newer : List RtpStorageItem) (n : Nat) (hl : l = older ++ e :: newer)
    (hn : n ≤ older.length) : l.drop n = older.drop n ++ e :: newer := by
  rw [hl, List.drop_append_of_le_length hn]

/-! ## Lemmas on the high-water mark -/

theorem guint64_sub_eq (a b : Nat) (hb : b ≤ a) (ha : a < 18446744073709551616) :
    guint64_sub a b = a - b := by
  unfold guint64_sub
  omega

theorem mem_add_item (stream : RtpStorageStream) (buffer : GstBuffer) (pt seq : Nat)
    (e : RtpStorageItem) :
    e ∈ (rtp_storage_stream_add_item stream buffer pt seq).queue ↔
      e = rtp_storage_item_new buffer pt seq ∨ e ∈ stream.queue := by
  obtain ⟨pre, post, h1, h2, _⟩ := add_item_split stream buffer pt seq
  rw [h2, h1]
  simp only [List.mem_append, List.mem_cons]
  tauto

theorem mem_of_mem_resize (stream stream1 : RtpStorageStream) (w : Nat)
    (h : rtp_storage_stream_resize stream w = some stream1) (e : RtpStorageItem)
    (he : e ∈ stream1.queue) : e ∈ stream.queue := by
  obtain ⟨_, _, removed, h1, _⟩ := resize_removed_kept stream stream1 w h
  have : e ∈ oldest_to_newest stream := by
    rw [h1]
    exact List.mem_append_right _ (List.mem_reverse.2 he)
  exact List.mem_reverse.1 this

theorem DTS_OR_PTS_lt (buffer : GstBuffer) (hd : buffer.dts < 18446744073709551616)
    (hp : buffer.pts < 18446744073709551616) :
    GST_BUFFER_DTS_OR_PTS buffer < 18446744073709551616 := by
  unfold GST_BUFFER_DTS_OR_PTS
  split <;> assumption

/-- The update of the high-water mark at the start of
`rtp_storage_stream_resize_and_add_item` keeps the invariant and makes the
mark valid and not smaller than the new timestamp. -/
theorem max_update_invariant (stream : RtpStorageStream) (t : Nat)
    (hinv : timestamps_below_max stream) (ht : t < 18446744073709551616)
    (hv : GST_CLOCK_TIME_IS_VALID t = true) :
    timestamps_below_max
      (if GST_CLOCK_TIME_IS_VALID stream.max_arrival_time then
        { stream with max_arrival_time := MAX stream.max_arrival_time t }
       else { stream with max_arrival_time := t }) ∧
    GST_CLOCK_TIME_IS_VALID
      (if GST_CLOCK_TIME_IS_VALID stream.max_arrival_time then
        { stream with max_arrival_time := MAX stream.max_arrival_time t }
       else { stream with max_arrival_time := t }).max_arrival_time = true ∧
    t ≤ (if GST_CLOCK_TIME_IS_VALID stream.max_arrival_time then
        { stream with max_arrival_time := MAX stream.max_arrival_time t }
       else { stream with max_arrival_time := t }).max_arrival_time := by
  obtain ⟨hlt, hall⟩ := hinv
  by_cases hm : GST_CLOCK_TIME_IS_VALID stream.max_arrival_time = true
  · simp only [hm, if_true]
    have hmax : stream.max_arrival_time ≤ MAX stream.max_arrival_time t ∧
        t ≤ MAX stream.max_arrival_time t ∧
        MAX stream.max_arrival_time t < 18446744073709551616 := by
      unfold MAX; split <;> omega
    refine ⟨⟨hmax.2.2, ?_⟩, MAX_valid _ _ hm hv, hmax.2.1⟩
    intro e he hev
    exact ⟨MAX_valid _ _ hm hv, le_trans (hall e he hev).2 hmax.1⟩
  · simp only [hm, Bool.false_eq_true, if_false]
    refine ⟨⟨ht, ?_⟩, hv, le_refl _⟩
    intro e he hev
    exact absurd (hall e he hev).1 hm

theorem resize_invariant (stream stream1 : RtpStorageStream) (w : Nat)
    (h : rtp_storage_stream_resize stream w = some stream1)
    (hinv : timestamps_below_max stream) : timestamps_below_max stream1 := by
  obtain ⟨hm, _, _⟩ := resize_removed_kept stream stream1 w h
  unfold timestamps_below_max at *
  rw [hm]
  exact ⟨hinv.1, fun e he hev => hinv.2 e (mem_of_mem_resize stream stream1 w h e he) hev⟩

theorem add_item_invariant (stream : RtpStorageStream) (buffer : GstBuffer) (pt seq : Nat)
    (hinv : timestamps_below_max stream)
    (hnew : GST_CLOCK_TIME_IS_VALID (GST_BUFFER_DTS_OR_PTS buffer) = true →
      GST_CLOCK_TIME_IS_VALID stream.max_arrival_time = true ∧
      GST_BUFFER_DTS_OR_PTS buffer ≤ stream.max_arrival_time) :
    timestamps_below_max (rtp_storage_stream_add_item stream buffer pt seq) := by
  refine ⟨hinv.1, ?_⟩
  intro e he hev
  rcases (mem_add_item stream buffer pt seq e).1 he with rfl | he
  · exact hnew hev
  · exact hinv.2 e he hev

theorem reachable_invariant (stream : RtpStorageStream)
    (h : ReachableByResizeAndAdd stream) : timestamps_below_max stream := by
  induction h with
  | new ssrc =>
    exact ⟨by simp [rtp_storage_stream_new, GST_CLOCK_TIME_NONE],
      by simp [rtp_storage_stream_new]⟩
  | step s s1 w b pt seq _ hd hp hr ih =>
    unfold rtp_storage_stream_resize_and_add_item at hr
    simp only at hr
    split at hr
    · rename_i hv
      obtain ⟨hi, hvm, hle⟩ :=
        max_update_invariant s (GST_BUFFER_DTS_OR_PTS b) ih (DTS_OR_PTS_lt b hd hp) hv
      split at hr
      · exact absurd hr (by simp)
      · rename_i s2 hs2
        simp only [Option.some.injEq] at hr
        rw [← hr]
        obtain ⟨hm2, _, _⟩ := resize_removed_kept _ s2 w hs2
        apply add_item_invariant _ _ _ _ (resize_invariant _ s2 w hs2 hi)
        intro _
        rw [hm2]
        exact ⟨hvm, hle⟩
    · rename_i hv
      simp only [Option.some.injEq] at hr
      rw [← hr]
      exact add_item_invariant _ _ _ _ ih (fun hh => absurd hh hv)

/-- In a settled storage the oldest-positioned entry with a timestamp is young
enough. -/
theorem settled_first_timed (m w : Nat) (untimed : List RtpStorageItem) (e : RtpStorageItem)
    (newer : List RtpStorageItem) (h : settled m w (untimed ++ e :: newer))
    (hu : ∀ y ∈ untimed, ¬ has_arrival_time y) (he : has_arrival_time e) :
    guint64_sub m (GST_BUFFER_DTS_OR_PTS e.buffer) ≤ w := by
  by_contra hc
  have hold : too_old m w e := ⟨he, by omega⟩
  have h1 := resize_scan_ge_of_too_old m w untimed e newer 0 0 hold
    (fun y hy hv => absurd hv (hu y hy))
  rw [resize_scan_settled m w _ 0 0 h] at h1
  omega

/-! ## C7 -/

/-- C7, as amended: in a stream state reachable from `rtp_storage_stream_new`
through `rtp_storage_stream_resize_and_add_item` calls, for a window that passes
the assertions and a packet with a valid arrival timestamp, the call returns;
the new storage is the part `kept` of the old one (what is left when a run is
removed from the oldest end) plus the new entry; and among the kept entries
the oldest-positioned one with a valid arrival timestamp `t`, if any, has
`t <= max_arrival_time` and `max_arrival_time - t <= W`.  Nothing is said of
the entries on its newer side nor of the entry just inserted. -/
theorem C7_eviction_after_combined_update (stream : RtpStorageStream) (W : Nat)
    (packet : GstBuffer) (pt seq : Nat)
    (hreach : ReachableByResizeAndAdd stream)
    (h0 : 0 < W) (h1 : W < 9223372036854775808)
    (hd : packet.dts < 18446744073709551616) (hp : packet.pts < 18446744073709551616)
    (hv : GST_CLOCK_TIME_IS_VALID (GST_BUFFER_DTS_OR_PTS packet) = true) :
    ∃ stream1 kept,
      rtp_storage_stream_resize_and_add_item stream W packet pt seq = some stream1 ∧
      (∃ removed, oldest_to_newest stream = removed ++ kept) ∧
      (∃ older newer, kept = older ++ newer ∧
        oldest_to_newest stream1 = older ++ rtp_storage_item_new packet pt seq :: newer) ∧
      (∀ (untimed : List RtpStorageItem) (e : RtpStorageItem) (newer : List RtpStorageItem),
        kept = untimed ++ e :: newer → (∀ y ∈ untimed, ¬ has_arrival_time y) →
        has_arrival_time e →
        GST_BUFFER_DTS_OR_PTS e.buffer ≤ stream1.max_arrival_time ∧
        stream1.max_arrival_time - GST_BUFFER_DTS_OR_PTS e.buffer ≤ W) := by
  have hinv := reachable_invariant stream hreach
  obtain ⟨hi, hvm, _⟩ :=
    max_update_invariant stream (GST_BUFFER_DTS_OR_PTS packet) hinv (DTS_OR_PTS_lt packet hd hp) hv
  obtain ⟨s2, hs2⟩ := resize_returns _ W hvm h0 h1
  obtain ⟨hm2, _, removed, hsplit, _, _, _, hset⟩ := resize_removed_kept _ s2 W hs2
  have hi2 := resize_invariant _ s2 W hs2 hi
  refine ⟨rtp_storage_stream_add_item s2 packet pt seq, oldest_to_newest s2, ?_, ?_, ?_, ?_⟩
  · unfold rtp_storage_stream_resize_and_add_item
    simp only [hv, if_true]
    rw [hs2]
  · refine ⟨removed, ?_⟩
    rw [← hsplit]
    unfold oldest_to_newest
    split <;> rfl
  · obtain ⟨pre, post, h3, h4, _⟩ := add_item_split s2 packet pt seq
    refine ⟨post.reverse, pre.reverse, ?_, ?_⟩
    · unfold oldest_to_newest; rw [h3]; simp
    · unfold oldest_to_newest; rw [h4]; simp
  · intro untimed e newer hk hu he
    have hmem : e ∈ s2.queue := by
      have : e ∈ oldest_to_newest s2 := by rw [hk]; simp
      exact List.mem_reverse.1 this
    have hle := (hi2.2 e hmem he).2
    rw [hk] at hset
    have hy := settled_first_timed _ W untimed e newer hset hu he
    rw [← hm2] at hy
    rw [guint64_sub_eq _ _ hle hi2.1] at hy
    exact ⟨hle, hy⟩

/-- C7 on a concrete call: the stream reached by one packet of seq 1 arrived at
time 100, window 10, and a second packet of seq 2 arrived at time 105. -/
theorem C7_eviction_after_combined_update_witness :
    ReachableByResizeAndAdd after_first_packet ∧
    ∃ stream1 kept,
      rtp_storage_stream_resize_and_add_item after_first_packet 10 ⟨2, 105, 105⟩ 96 2
        = some stream1 ∧
      (∃ removed, oldest_to_newest after_first_packet = removed ++ kept) ∧
      (∃ older newer, kept = older ++ newer ∧
        oldest_to_newest stream1 = older ++ rtp_storage_item_new ⟨2, 105, 105⟩ 96 2 :: newer) ∧
      (∀ (untimed : List RtpStorageItem) (e : RtpStorageItem) (newer : List RtpStorageItem),
        kept = untimed ++ e :: newer → (∀ y ∈ untimed, ¬ has_arrival_time y) →
        has_arrival_time e →
        GST_BUFFER_DTS_OR_PTS e.buffer ≤ stream1.max_arrival_time ∧
        stream1.max_arrival_time - GST_BUFFER_DTS_OR_PTS e.buffer ≤ 10) :=
  have hreach : ReachableByResizeAndAdd after_first_packet :=
    ReachableByResizeAndAdd.step (rtp_storage_stream_new 1) after_first_packet 10
      ⟨1, 100, 100⟩ 96 1 (ReachableByResizeAndAdd.new 1) (by decide) (by decide) (by decide)
  ⟨hreach, C7_eviction_after_combined_update after_first_packet 10 ⟨2, 105, 105⟩ 96 2 hreach
    (by decide) (by decide) (by decide) (by decide) (by decide)⟩

/-- C7 fails as stated: after a packet of seq 1 arrived at time 100, the call
with window 10 and a packet of seq 2 arrived at time 0 leaves that packet in
the storage, although `max_arrival_time - t` is 100: eviction runs before the
insertion and never looks at the entry being inserted. -/
theorem C7_counterexample :
    ReachableByResizeAndAdd after_first_packet
    ∧ rtp_storage_stream_resize_and_add_item after_first_packet 10 ⟨2, 0, 0⟩ 96 2
      = some { queue := [⟨⟨2, 0, 0⟩, 96, 2⟩, ⟨⟨1, 100, 100⟩, 96, 1⟩],
               max_arrival_time := 100, ssrc := 1 }
    ∧ ¬ (∀ stream1, rtp_storage_stream_resize_and_add_item after_first_packet 10
          ⟨2, 0, 0⟩ 96 2 = some stream1 →
        ∀ e ∈ stream1.queue,
          GST_CLOCK_TIME_IS_VALID (GST_BUFFER_DTS_OR_PTS e.buffer) = true →
          stream1.max_arrival_time - GST_BUFFER_DTS_OR_PTS e.buffer ≤ 10) := by
  have hrun : rtp_storage_stream_resize_and_add_item after_first_packet 10 ⟨2, 0, 0⟩ 96 2
      = some { queue := [⟨⟨2, 0, 0⟩, 96, 2⟩, ⟨⟨1, 100, 100⟩, 96, 1⟩],
               max_arrival_time := 100, ssrc := 1 } := by decide
  refine ⟨ReachableByResizeAndAdd.step (rtp_storage_stream_new 1) after_first_packet 10
      ⟨1, 100, 100⟩ 96 1 (ReachableByResizeAndAdd.new 1) (by decide) (by decide) (by decide),
    hrun, ?_⟩
  intro hall
  have := hall _ hrun ⟨⟨2, 0, 0⟩, 96, 2⟩ (by decide) (by decide)
  exact absurd this (by decide)

/-! ## C8 -/

/-- C8: `rtp_storage_stream_resize (stream, W)` removes a run of entries from
the oldest end, and every removed entry whose packet has a valid arrival
timestamp `t` has `max_arrival_time - t > W` (the unsigned C difference);
equivalently every stored entry with a valid `t` and `max_arrival_time - t <= W`
is still stored, at its place, after the call.  The call returns for every
stream with a valid `max_arrival_time` and every window that passes the
assertions (`0 < W` as a `gint64`). -/
theorem C8_eviction_removes_only_too_old :
    (∀ (stream stream1 : RtpStorageStream) (W : Nat),
      rtp_storage_stream_resize stream W = some stream1 →
      ∃ removed, oldest_to_newest stream = removed ++ oldest_to_newest stream1 ∧
        ∀ e ∈ removed, GST_CLOCK_TIME_IS_VALID (GST_BUFFER_DTS_OR_PTS e.buffer) = true →
          guint64_sub stream.max_arrival_time (GST_BUFFER_DTS_OR_PTS e.buffer) > W)
    ∧ (∀ (stream stream1 : RtpStorageStream) (W : Nat)
        (older : List RtpStorageItem) (e : RtpStorageItem) (newer : List RtpStorageItem),
      rtp_storage_stream_resize stream W = some stream1 →
      oldest_to_newest stream = older ++ e :: newer →
      GST_CLOCK_TIME_IS_VALID (GST_BUFFER_DTS_OR_PTS e.buffer) = true →
      guint64_sub stream.max_arrival_time (GST_BUFFER_DTS_OR_PTS e.buffer) ≤ W →
      ∃ older1, oldest_to_newest stream1 = older1 ++ e :: newer)
    ∧ (∀ (stream : RtpStorageStream) (W : Nat),
      GST_CLOCK_TIME_IS_VALID stream.max_arrival_time = true →
      0 < W → W < 9223372036854775808 →
      ∃ stream1, rtp_storage_stream_resize stream W = some stream1) := by
  refine ⟨?_, ?_, resize_returns⟩
  · intro stream stream1 W h
    obtain ⟨_, _, removed, h1, _, h3, _, _⟩ := resize_removed_kept stream stream1 W h
    exact ⟨removed, h1, fun e he hv => (h3 e he hv).2⟩
  · intro stream stream1 W older e newer h hl hv hy
    have hle := resize_scan_le_of_young stream.max_arrival_time W older e newer 0 0 hv hy
    rw [← hl] at hle
    simp only [Nat.zero_add, Nat.zero_max] at hle
    rw [resize_kept_eq stream stream1 W h]
    exact ⟨_, kept_of_count_le _ older e newer _ hl hle⟩

/-- C8 on a concrete stream: window 10, high-water mark 100, storage (oldest to
newest) seq 1 at time 0, seq 2 at time 95: the call returns, and the entry for
seq 2, young enough, is still stored. -/
theorem C8_eviction_removes_only_too_old_witness :
    rtp_storage_stream_resize old_then_young 10 = some young_only
    ∧ oldest_to_newest old_then_young
      = [⟨⟨1, 0, 0⟩, 96, 1⟩] ++ (⟨⟨2, 95, 95⟩, 96, 2⟩ : RtpStorageItem) :: []
    ∧ guint64_sub old_then_young.max_arrival_time
        (GST_BUFFER_DTS_OR_PTS (⟨2, 95, 95⟩ : GstBuffer)) ≤ 10
    ∧ ∃ older1, oldest_to_newest young_only
      = older1 ++ (⟨⟨2, 95, 95⟩, 96, 2⟩ : RtpStorageItem) :: [] :=
  ⟨by decide, by decide, by decide,
    C8_eviction_removes_only_too_old.2.1 old_then_young young_only
      10 [⟨⟨1, 0, 0⟩, 96, 1⟩] ⟨⟨2, 95, 95⟩, 96, 2⟩ [] (by decide) (by decide) (by decide)
      (by decide)⟩

/-! ## C9 -/

/-- C9, as amended: for a stream with a valid `max_arrival_time` and a window
that passes the assertions, `rtp_storage_stream_resize` returns and removes a
run of entries from the oldest end that is empty or ends with a too-old entry
(valid `t`, `max_arrival_time - t > W`).  An entry without valid arrival
timestamp that has no too-old entry on its newer side is still stored, at its
place; and entries without timestamp do not stop the scan: a too-old entry
whose older side holds only too-old entries and entries without timestamp is
removed, with all of them. -/
theorem C9_untimed_entries_in_eviction (stream : RtpStorageStream) (W : Nat)
    (hm : GST_CLOCK_TIME_IS_VALID stream.max_arrival_time = true)
    (h0 : 0 < W) (h1 : W < 9223372036854775808) :
    ∃ stream1 removed, rtp_storage_stream_resize stream W = some stream1 ∧
      oldest_to_newest stream = removed ++ oldest_to_newest stream1 ∧
      (removed = [] ∨ ∃ a x, removed = a ++ [x] ∧ too_old stream.max_arrival_time W x) ∧
      (∀ (older : List RtpStorageItem) (e : RtpStorageItem) (newer : List RtpStorageItem),
        oldest_to_newest stream = older ++ e :: newer → ¬ has_arrival_time e →
        (∀ y ∈ newer, ¬ too_old stream.max_arrival_time W y) →
        ∃ older1, oldest_to_newest stream1 = older1 ++ e :: newer) ∧
      (∀ (older : List RtpStorageItem) (e : RtpStorageItem) (newer : List RtpStorageItem),
        oldest_to_newest stream = older ++ e :: newer →
        too_old stream.max_arrival_time W e →
        (∀ y ∈ older, has_arrival_time y → too_old stream.max_arrival_time W y) →
        ∃ r, removed = older ++ e :: r) := by
  obtain ⟨stream1, hs1⟩ := resize_returns stream W hm h0 h1
  obtain ⟨_, _, removed, hsplit, hlen, _, hlast, _⟩ := resize_removed_kept stream stream1 W hs1
  refine ⟨stream1, removed, hs1, hsplit, hlast, ?_, ?_⟩
  · intro older e newer hl hv hn
    have hle := resize_scan_le_of_untimed stream.max_arrival_time W older e newer 0 0 hv hn
    rw [← hl] at hle
    simp only [Nat.zero_add, Nat.zero_max] at hle
    rw [resize_kept_eq stream stream1 W hs1]
    exact ⟨_, kept_of_count_le _ older e newer _ hl hle⟩
  · intro older e newer hl he ho
    have hge := resize_scan_ge_of_too_old stream.max_arrival_time W older e newer 0 0 he ho
    rw [← hl] at hge
    unfold oldest_to_newest at hge hl hsplit
    rw [← hlen] at hge
    have hrem : removed = (stream.queue.reverse).take removed.length := by
      conv => rhs; rw [hsplit]
      rw [List.take_left]
    obtain ⟨k, hk⟩ : ∃ k, removed.length - older.length = k + 1 := ⟨removed.length - older.length - 1, by omega⟩
    refine ⟨newer.take k, ?_⟩
    rw [hrem, hl, List.take_append_eq_append_take, List.take_of_length_le (by omega), hk,
      List.take_succ_cons]

/-- C9 on a concrete stream: window 10, high-water mark 100, storage (oldest to
newest) seq 1 at time 0, seq 2 without timestamp, seq 3 at time 95. -/
theorem C9_untimed_entries_in_eviction_witness :
    ∃ stream1 removed, rtp_storage_stream_resize untimed_between 10 = some stream1 ∧
      oldest_to_newest untimed_between = removed ++ oldest_to_newest stream1 ∧
      (removed = [] ∨
        ∃ a x, removed = a ++ [x] ∧ too_old untimed_between.max_arrival_time 10 x) ∧
      (∀ (older : List RtpStorageItem) (e : RtpStorageItem) (newer : List RtpStorageItem),
        oldest_to_newest untimed_between = older ++ e :: newer → ¬ has_arrival_time e →
        (∀ y ∈ newer, ¬ too_old untimed_between.max_arrival_time 10 y) →
        ∃ older1, oldest_to_newest stream1 = older1 ++ e :: newer) ∧
      (∀ (older : List RtpStorageItem) (e : RtpStorageItem) (newer : List RtpStorageItem),
        oldest_to_newest untimed_between = older ++ e :: newer →
        too_old untimed_between.max_arrival_time 10 e →
        (∀ y ∈ older, has_arrival_time y → too_old untimed_between.max_arrival_time 10 y) →
        ∃ r, removed = older ++ e :: r) :=
  C9_untimed_entries_in_eviction untimed_between 10 (by decide) (by decide) (by decide)

/-- C9 fails as stated: in a stream holding (oldest to newest) seq 1 without
arrival timestamp and seq 2 arrived at time 0, with high-water mark 100 and
window 10, `rtp_storage_stream_resize` removes both entries: the count of
entries to pop includes the entry without timestamp that precedes the too-old
one.  The same happens inside `rtp_storage_stream_resize_and_add_item` when
those two packets are followed by one arriving at time 100. -/
theorem C9_counterexample :
    GST_CLOCK_TIME_IS_VALID untimed_then_old.max_arrival_time = true
    ∧ rtp_storage_stream_resize untimed_then_old 10
      = some { queue := [], max_arrival_time := 100, ssrc := 1 }
    ∧ ¬ (∀ stream1, rtp_storage_stream_resize untimed_then_old 10 = some stream1 →
        ∀ e ∈ untimed_then_old.queue,
          GST_CLOCK_TIME_IS_VALID (GST_BUFFER_DTS_OR_PTS e.buffer) = false →
          e ∈ stream1.queue)
    ∧ ((rtp_storage_stream_resize_and_add_item (rtp_storage_stream_new 1) 10
          ⟨1, 18446744073709551615, 18446744073709551615⟩ 96 1).bind
        (fun s1 => (rtp_storage_stream_resize_and_add_item s1 10 ⟨2, 0, 0⟩ 96 2).bind
          (fun s2 => rtp_storage_stream_resize_and_add_item s2 10 ⟨3, 100, 100⟩ 96 3)))
      = some { queue := [⟨⟨3, 100, 100⟩, 96, 3⟩], max_arrival_time := 100, ssrc := 1 } := by
  have hrun : rtp_storage_stream_resize untimed_then_old 10
      = some { queue := [], max_arrival_time := 100, ssrc := 1 } := by decide
  refine ⟨by decide, hrun, ?_, by decide⟩
  intro hall
  have := hall _ hrun ⟨⟨1, 18446744073709551615, 18446744073709551615⟩, 96, 1⟩
    (by decide) (by decide)
  simp at this

/-! ## C10 -/

theorem resize_idempotent (stream stream1 : RtpStorageStream) (W : Nat)
    (h : rtp_storage_stream_resize stream W = some stream1) :
    rtp_storage_stream_resize stream1 W = some stream1 := by
  obtain ⟨hm, _, removed, _, _, _, _, hset⟩ := resize_removed_kept stream stream1 W h
  have hscan := resize_scan_settled stream.max_arrival_time W _ 0 0 hset
  unfold oldest_to_newest at hscan
  unfold rtp_storage_stream_resize at h ⊢
  rw [hm]
  split at h
  · exact absurd h (by simp)
  · rename_i h1
    split at h
    · exact absurd h (by simp)
    · rename_i h2
      split at h
      · exact absurd h (by simp)
      · rename_i h3
        simp only [h1, h2, h3, if_false]
        simp only [Bool.false_eq_true, if_false]
        rw [hscan]
        simp only [pop_tail_times, Option.some.injEq]
        rw [← hm]

/-- C10: running `rtp_storage_stream_resize (stream, W)` a second time, with no
insertion in between, removes nothing: the second call returns the stream the
first one returned.  Both calls return for every stream with a valid
`max_arrival_time` and every window that passes the assertions. -/
theorem C10_eviction_idempotent :
    (∀ (stream stream1 : RtpStorageStream) (W : Nat),
      rtp_storage_stream_resize stream W = some stream1 →
      rtp_storage_stream_resize stream1 W = some stream1)
    ∧ (∀ (stream : RtpStorageStream) (W : Nat),
      (rtp_storage_stream_resize stream W).bind (fun s => rtp_storage_stream_resize s W)
        = rtp_storage_stream_resize stream W)
    ∧ (∀ (stream : RtpStorageStream) (W : Nat),
      GST_CLOCK_TIME_IS_VALID stream.max_arrival_time = true →
      0 < W → W < 9223372036854775808 →
      ∃ stream1, rtp_storage_stream_resize stream W = some stream1 ∧
        rtp_storage_stream_resize stream1 W = some stream1) := by
  refine ⟨resize_idempotent, ?_, ?_⟩
  · intro stream W
    cases h : rtp_storage_stream_resize stream W with
    | none => rfl
    | some s1 => simpa using resize_idempotent stream s1 W h
  · intro stream W hm h0 h1
    obtain ⟨s1, hs1⟩ := resize_returns stream W hm h0 h1
    exact ⟨s1, hs1, resize_idempotent stream s1 W hs1⟩

/-- C10 on a concrete stream: window 10, high-water mark 100, storage (oldest to
newest) seq 1 at time 0, seq 2 at time 95; the first call removes seq 1, the
second one nothing. -/
theorem C10_eviction_idempotent_witness :
    rtp_storage_stream_resize old_then_young 10 = some young_only
    ∧ rtp_storage_stream_resize young_only 10 = some young_only :=
  ⟨by decide, C10_eviction_idempotent.1 old_then_young young_only 10 (by decide)⟩

/-! ## C11 -/

/-- How one call of `rtp_storage_stream_resize_and_add_item` that returns
changes the stream: the high-water mark is brought up to a valid arrival time
of the packet, the eviction step runs on that stream, then the entry is added. -/
theorem resize_and_add_item_eq (stream stream1 : RtpStorageStream) (size_time : Nat)
    (buffer : GstBuffer) (pt seq : Nat)
    (h : rtp_storage_stream_resize_and_add_item stream size_time buffer pt seq = some stream1) :
    (GST_CLOCK_TIME_IS_VALID (GST_BUFFER_DTS_OR_PTS buffer) = true ∧
      ∃ stream2, rtp_storage_stream_resize
          (with_arrival_time stream (GST_BUFFER_DTS_OR_PTS buffer)) size_time = some stream2 ∧
        stream1 = rtp_storage_stream_add_item stream2 buffer pt seq) ∨
    (GST_CLOCK_TIME_IS_VALID (GST_BUFFER_DTS_OR_PTS buffer) = false ∧
      stream1 = rtp_storage_stream_add_item stream buffer pt seq) := by
  unfold rtp_storage_stream_resize_and_add_item at h
  simp only at h
  split at h
  · rename_i hv
    left
    refine ⟨hv, ?_⟩
    unfold with_arrival_time
    split at h
    · exact absurd h (by simp)
    · rename_i s2 hs2
      simp only [Option.some.injEq] at h
      exact ⟨s2, hs2, h.symm⟩
  · rename_i hv
    right
    simp only [Option.some.injEq] at h
    exact ⟨by simpa using hv, h.symm⟩

theorem add_item_max (stream : RtpStorageStream) (buffer : GstBuffer) (pt seq : Nat) :
    (rtp_storage_stream_add_item stream buffer pt seq).max_arrival_time
      = stream.max_arrival_time := rfl

theorem add_item_ssrc (stream : RtpStorageStream) (buffer : GstBuffer) (pt seq : Nat) :
    (rtp_storage_stream_add_item stream buffer pt seq).ssrc = stream.ssrc := rfl

/-- The high-water mark after one call that returns. -/
theorem resize_and_add_item_max (stream stream1 : RtpStorageStream) (size_time : Nat)
    (buffer : GstBuffer) (pt seq : Nat)
    (h : rtp_storage_stream_resize_and_add_item stream size_time buffer pt seq = some stream1) :
    stream1.max_arrival_time =
      if GST_CLOCK_TIME_IS_VALID (GST_BUFFER_DTS_OR_PTS buffer) then
        (if GST_CLOCK_TIME_IS_VALID stream.max_arrival_time then
          MAX stream.max_arrival_time (GST_BUFFER_DTS_OR_PTS buffer)
         else GST_BUFFER_DTS_OR_PTS buffer)
      else stream.max_arrival_time := by
  rcases resize_and_add_item_eq stream stream1 size_time buffer pt seq h with
    ⟨hv, s2, hs2, h1⟩ | ⟨hv, h1⟩
  · obtain ⟨hm, _, _⟩ := resize_removed_kept _ s2 size_time hs2
    rw [h1, add_item_max, hm]
    simp only [hv, if_true]
    unfold with_arrival_time
    split <;> rfl
  · rw [h1, add_item_max]
    simp [hv]

theorem MAX_cases (a b : Nat) : (MAX a b = a ∨ MAX a b = b) ∧ a ≤ MAX a b ∧ b ≤ MAX a b := by
  unfold MAX
  split
  · exact ⟨Or.inl rfl, le_refl _, by omega⟩
  · exact ⟨Or.inr rfl, by omega, le_refl _⟩

theorem valid_arrival_times_cons (c : Call) (rest : List Call) :
    valid_arrival_times (c :: rest) =
      if GST_CLOCK_TIME_IS_VALID (GST_BUFFER_DTS_OR_PTS c.buffer) then
        GST_BUFFER_DTS_OR_PTS c.buffer :: valid_arrival_times rest
      else valid_arrival_times rest := by
  unfold valid_arrival_times
  simp only [List.map_cons, List.filter_cons]

/-- A run started on a stream whose high-water mark is valid ends with the
maximum of that mark and of the valid arrival times passed. -/
theorem run_max_of_valid (calls : List Call) (stream stream1 : RtpStorageStream)
    (h : resize_and_add_items stream calls = some stream1)
    (hm : GST_CLOCK_TIME_IS_VALID stream.max_arrival_time = true) :
    GST_CLOCK_TIME_IS_VALID stream1.max_arrival_time = true ∧
    stream1.max_arrival_time ∈ stream.max_arrival_time :: valid_arrival_times calls ∧
    ∀ t ∈ stream.max_arrival_time :: valid_arrival_times calls,
      t ≤ stream1.max_arrival_time := by
  induction calls generalizing stream with
  | nil =>
    simp only [resize_and_add_items, Option.some.injEq] at h
    subst h
    exact ⟨hm, by simp [valid_arrival_times], by simp [valid_arrival_times]⟩
  | cons c rest ih =>
    simp only [resize_and_add_items] at h
    split at h
    · exact absurd h (by simp)
    · rename_i s1 hs1
      have hmax := resize_and_add_item_max stream s1 _ _ _ _ hs1
      rw [valid_arrival_times_cons]
      by_cases hv : GST_CLOCK_TIME_IS_VALID (GST_BUFFER_DTS_OR_PTS c.buffer) = true
      · simp only [hv, hm, if_true] at hmax ⊢
        have hm1 : GST_CLOCK_TIME_IS_VALID s1.max_arrival_time = true := by
          rw [hmax]; exact MAX_valid _ _ hm hv
        obtain ⟨h1, h2, h3⟩ := ih s1 h hm1
        obtain ⟨hc, hle1, hle2⟩ := MAX_cases stream.max_arrival_time
          (GST_BUFFER_DTS_OR_PTS c.buffer)
        rw [← hmax] at hc hle1 hle2
        have hs1le : s1.max_arrival_time ≤ stream1.max_arrival_time :=
          h3 _ (List.mem_cons_self _ _)
        refine ⟨h1, ?_, ?_⟩
        · rcases List.mem_cons.1 h2 with h2 | h2
          · rw [h2]
            rcases hc with hc | hc
            · rw [hc]; exact List.mem_cons_self _ _
            · rw [hc]; exact List.mem_cons_of_mem _ (List.mem_cons_self _ _)
          · exact List.mem_cons_of_mem _ (List.mem_cons_of_mem _ h2)
        · intro t ht
          rcases List.mem_cons.1 ht with ht | ht
          · rw [ht]; exact le_trans hle1 hs1le
          · rcases List.mem_cons.1 ht with ht | ht
            · rw [ht]; exact le_trans hle2 hs1le
            · exact h3 t (List.mem_cons_of_mem _ ht)
      · simp only [hv, Bool.false_eq_true, if_false] at hmax ⊢
        rw [← hmax]
        exact ih s1 h (by rw [hmax]; exact hm)

/-- A run started on a stream whose high-water mark is unset. -/
theorem run_max_of_unset (calls : List Call) (stream stream1 : RtpStorageStream)
    (h : resize_and_add_items stream calls = some stream1)
    (hm : stream.max_arrival_time = GST_CLOCK_TIME_NONE) :
    (stream1.max_arrival_time = GST_CLOCK_TIME_NONE ↔ valid_arrival_times calls = []) ∧
    (valid_arrival_times calls ≠ [] →
      stream1.max_arrival_time ∈ valid_arrival_times calls ∧
      ∀ t ∈ valid_arrival_times calls, t ≤ stream1.max_arrival_time) := by
  induction calls generalizing stream with
  | nil =>
    simp only [resize_and_add_items, Option.some.injEq] at h
    subst h
    simp [valid_arrival_times, hm]
  | cons c rest ih =>
    simp only [resize_and_add_items] at h
    split at h
    · exact absurd h (by simp)
    · rename_i s1 hs1
      have hmax := resize_and_add_item_max stream s1 _ _ _ _ hs1
      have hinv : GST_CLOCK_TIME_IS_VALID stream.max_arrival_time = false := by
        rw [hm]; decide
      rw [valid_arrival_times_cons]
      by_cases hv : GST_CLOCK_TIME_IS_VALID (GST_BUFFER_DTS_OR_PTS c.buffer) = true
      · simp only [hv, hinv, if_true, Bool.false_eq_true, if_false] at hmax ⊢
        have hm1 : GST_CLOCK_TIME_IS_VALID s1.max_arrival_time = true := by
          rw [hmax]; exact hv
        obtain ⟨h1, h2, h3⟩ := run_max_of_valid rest s1 stream1 h hm1
        rw [hmax] at h2 h3
        refine ⟨?_, fun _ => ⟨h2, h3⟩⟩
        constructor
        · intro hnone
          rw [hnone] at h1
          exact absurd h1 (by decide)
        · intro hnil
          exact absurd hnil (by simp)
      · simp only [hv, Bool.false_eq_true, if_false] at hmax ⊢
        exact ih s1 h (by rw [hmax]; exact hm)

theorem run_returns (calls : List Call) (stream : RtpStorageStream)
    (hw : ∀ c ∈ calls, 0 < c.size_time ∧ c.size_time < 9223372036854775808) :
    ∃ stream1, resize_and_add_items stream calls = some stream1 := by
  induction calls generalizing stream with
  | nil => exact ⟨stream, rfl⟩
  | cons c rest ih =>
    obtain ⟨h0, h1⟩ := hw c (List.mem_cons_self _ _)
    obtain ⟨s1, hs1⟩ := resize_and_add_item_returns stream c.size_time c.buffer c.pt c.seq h0 h1
    simp only [resize_and_add_items, hs1]
    exact ih s1 (fun d hd => hw d (List.mem_cons_of_mem _ hd))

/-- C11: after any sequence of `rtp_storage_stream_resize_and_add_item` calls on
a stream made by `rtp_storage_stream_new`, `max_arrival_time` is
`GST_CLOCK_TIME_NONE` if and only if no packet with a valid arrival timestamp
was passed, and otherwise it is the maximum of the valid arrival timestamps of
all the packets passed (one of them, and not below any of them), whatever was
evicted since; a call on a stream whose mark is valid leaves it valid and not
smaller.  The run returns when every window passes the assertions. -/
theorem C11_high_water_arrival_time :
    (∀ (ssrc : Nat) (calls : List Call) (stream : RtpStorageStream),
      resize_and_add_items (rtp_storage_stream_new ssrc) calls = some stream →
      (stream.max_arrival_time = GST_CLOCK_TIME_NONE ↔ valid_arrival_times calls = []) ∧
      (valid_arrival_times calls ≠ [] →
        stream.max_arrival_time ∈ valid_arrival_times calls ∧
        ∀ t ∈ valid_arrival_times calls, t ≤ stream.max_arrival_time))
    ∧ (∀ (stream stream1 : RtpStorageStream) (size_time : Nat) (buffer : GstBuffer)
        (pt seq : Nat),
      rtp_storage_stream_resize_and_add_item stream size_time buffer pt seq = some stream1 →
      GST_CLOCK_TIME_IS_VALID stream.max_arrival_time = true →
      GST_CLOCK_TIME_IS_VALID stream1.max_arrival_time = true ∧
      stream.max_arrival_time ≤ stream1.max_arrival_time)
    ∧ (∀ (ssrc : Nat) (calls : List Call),
      (∀ c ∈ calls, 0 < c.size_time ∧ c.size_time < 9223372036854775808) →
      ∃ stream, resize_and_add_items (rtp_storage_stream_new ssrc) calls = some stream) := by
  refine ⟨?_, ?_, ?_⟩
  · intro ssrc calls stream h
    exact run_max_of_unset calls (rtp_storage_stream_new ssrc) stream h rfl
  · intro stream stream1 w b pt seq h hm
    have hrun : resize_and_add_items stream [⟨w, b, pt, seq⟩] = some stream1 := by
      simp [resize_and_add_items, h]
    obtain ⟨h1, _, h3⟩ := run_max_of_valid [⟨w, b, pt, seq⟩] stream stream1 hrun hm
    exact ⟨h1, h3 _ (List.mem_cons_self _ _)⟩
  · intro ssrc calls hw
    exact run_returns calls _ hw

/-- C11 on a concrete run: packets arriving at 100, without timestamp, at 250
and at 120, window 10 each time; the first packet has been evicted by the end
and the mark is 250, the largest of the three valid arrival times. -/
theorem C11_high_water_arrival_time_witness :
    resize_and_add_items (rtp_storage_stream_new 1) example_calls = some example_calls_end
    ∧ valid_arrival_times example_calls = [100, 250, 120]
    ∧ (example_calls_end.max_arrival_time = GST_CLOCK_TIME_NONE ↔
        valid_arrival_times example_calls = [])
    ∧ (valid_arrival_times example_calls ≠ [] →
        example_calls_end.max_arrival_time ∈ valid_arrival_times example_calls ∧
        ∀ t ∈ valid_arrival_times example_calls, t ≤ example_calls_end.max_arrival_time) :=
  ⟨by decide, by decide,
    C11_high_water_arrival_time.1 1 example_calls example_calls_end (by decide)⟩

/-! ## C12 -/

/-- C12: when the packet has no valid arrival timestamp (DTS or PTS),
`rtp_storage_stream_resize_and_add_item` returns, for every stream and every
window, exactly the stream that `rtp_storage_stream_add_item` alone yields:
`max_arrival_time` and `ssrc` are unchanged and the old entries are all
there, in order, around the new one.  The eviction step and its assertions
are not reached, so the call also returns on a stream whose
`max_arrival_time` is unset and for a window that the assertions refuse. -/
theorem C12_untimed_packet_is_only_inserted (stream : RtpStorageStream) (W : Nat)
    (buffer : GstBuffer) (pt seq : Nat)
    (hv : GST_CLOCK_TIME_IS_VALID (GST_BUFFER_DTS_OR_PTS buffer) = false) :
    rtp_storage_stream_resize_and_add_item stream W buffer pt seq
      = some (rtp_storage_stream_add_item stream buffer pt seq)
    ∧ (rtp_storage_stream_add_item stream buffer pt seq).max_arrival_time
      = stream.max_arrival_time
    ∧ (rtp_storage_stream_add_item stream buffer pt seq).ssrc = stream.ssrc
    ∧ ∃ older newer, oldest_to_newest stream = older ++ newer ∧
        oldest_to_newest (rtp_storage_stream_add_item stream buffer pt seq)
          = older ++ rtp_storage_item_new buffer pt seq :: newer := by
  refine ⟨?_, rfl, rfl, ?_⟩
  · unfold rtp_storage_stream_resize_and_add_item
    simp [hv]
  · obtain ⟨pre, post, h1, h2, _⟩ := add_item_split stream buffer pt seq
    refine ⟨post.reverse, pre.reverse, ?_, ?_⟩
    · unfold oldest_to_newest; rw [h1]; simp
    · unfold oldest_to_newest; rw [h2]; simp

/-- C12 on a new stream (`max_arrival_time` unset) with window 0: the eviction
routine would abort there, the combined call with a packet without timestamp
returns the stream holding that packet. -/
theorem C12_untimed_packet_is_only_inserted_witness :
    rtp_storage_stream_resize (rtp_storage_stream_new 1) 0 = none
    ∧ rtp_storage_stream_resize_and_add_item (rtp_storage_stream_new 1) 0
        ⟨1, 18446744073709551615, 18446744073709551615⟩ 96 7
      = some (rtp_storage_stream_add_item (rtp_storage_stream_new 1)
          ⟨1, 18446744073709551615, 18446744073709551615⟩ 96 7) :=
  ⟨by decide,
    (C12_untimed_packet_is_only_inserted (rtp_storage_stream_new 1) 0
      ⟨1, 18446744073709551615, 18446744073709551615⟩ 96 7 (by decide)).1⟩

/-! ## C13 -/

/-- A list that holds an FEC entry holds one that is last or followed by a
media entry: the end of a run of FEC entries. -/
theorem exists_fec_run_end (pt_fec : Nat) (l : List RtpStorageItem)
    (h : ∃ e ∈ l, e.pt = pt_fec) :
    ∃ older x newer, l = older ++ x :: newer ∧ x.pt = pt_fec ∧
      (newer = [] ∨ ∃ n t, newer = n :: t ∧ n.pt ≠ pt_fec) := by
  induction l with
  | nil => obtain ⟨e, he, _⟩ := h; simp at he
  | cons y rest ih =>
    by_cases hrest : ∃ e ∈ rest, e.pt = pt_fec
    · obtain ⟨older, x, newer, h1, h2, h3⟩ := ih hrest
      exact ⟨y :: older, x, newer, by simp [h1], h2, h3⟩
    · have hy : y.pt = pt_fec := by
        obtain ⟨e, he, hpt⟩ := h
        rcases List.mem_cons.1 he with rfl | he
        · exact hpt
        · exact absurd ⟨e, he, hpt⟩ hrest
      refine ⟨[], y, rest, rfl, hy, ?_⟩
      cases rest with
      | nil => exact Or.inl rfl
      | cons n t =>
        refine Or.inr ⟨n, t, rfl, ?_⟩
        intro hn
        exact hrest ⟨n, List.mem_cons_self _ _, hn⟩

/-- C13, as amended: when `lost_seq` is cyclically older than the seq of every
stored entry (`(gint16) (e.seq - lost_seq) > 0` for each),
`rtp_storage_stream_get_packets_for_recovery` returns `NULL` if and only if no
stored entry has `pt == pt_fec`; when the storage holds an FEC entry the call
returns the group closed by the oldest-positioned FEC entry that is the newest
entry or has a media entry as newer neighbour, a non-empty list. -/
theorem C13_lost_seq_older_than_storage (stream : RtpStorageStream) (pt_fec lost_seq : Nat)
    (hold : ∀ e ∈ stream.queue, 0 < to_gint16 ((e.seq : Int) - (lost_seq : Int))) :
    (rtp_storage_stream_get_packets_for_recovery stream pt_fec lost_seq = none ↔
      ∀ e ∈ stream.queue, e.pt ≠ pt_fec)
    ∧ rtp_storage_stream_get_packets_for_recovery stream pt_fec lost_seq
      = spec_recovery_group pt_fec lost_seq (oldest_to_newest stream)
    ∧ ((∃ e ∈ stream.queue, e.pt = pt_fec) →
      ∃ l, rtp_storage_stream_get_packets_for_recovery stream pt_fec lost_seq = some l ∧
        l ≠ []) := by
  have hno : ∀ e ∈ stream.queue, e.seq ≠ lost_seq := by
    intro e he hs
    have := hold e he
    rw [hs] at this
    simp [to_gint16] at this
  have hiff : rtp_storage_stream_get_packets_for_recovery stream pt_fec lost_seq = none ↔
      ∀ e ∈ stream.queue, e.pt ≠ pt_fec := by
    rw [get_packets_none_iff]
    constructor
    · rintro ⟨_, hclose⟩ e he hpt
      have hex : ∃ e ∈ oldest_to_newest stream, e.pt = pt_fec :=
        ⟨e, List.mem_reverse.2 he, hpt⟩
      obtain ⟨older, x, newer, h1, h2, h3⟩ := exists_fec_run_end pt_fec _ hex
      have hx : x ∈ stream.queue := by
        have : x ∈ oldest_to_newest stream := by rw [h1]; simp
        exact List.mem_reverse.1 this
      exact hclose ⟨older, x, newer, h1, h2, le_of_lt (hold x hx), h3⟩
    · intro hmedia
      refine ⟨hno, ?_⟩
      rintro ⟨older, x, newer, h1, h2, _⟩
      have hx : x ∈ stream.queue := by
        have : x ∈ oldest_to_newest stream := by rw [h1]; simp
        exact List.mem_reverse.1 this
      exact hmedia x hx h2
  refine ⟨hiff, get_packets_eq_spec stream pt_fec lost_seq hno, ?_⟩
  rintro ⟨e, he, hpt⟩
  cases hres : rtp_storage_stream_get_packets_for_recovery stream pt_fec lost_seq with
  | none => exact absurd hpt (hiff.1 hres e he)
  | some l => exact ⟨l, rfl, get_packets_nonempty stream pt_fec lost_seq l hres⟩

/-- C13 on a storage of three media entries 5, 6, 7 and `lost_seq = 4`: no FEC
entry (payload type 100) is stored and the call returns `NULL`. -/
theorem C13_lost_seq_older_than_storage_witness :
    rtp_storage_stream_get_packets_for_recovery
      { queue := [⟨example_packet 7, 96, 7⟩, ⟨example_packet 6, 96, 6⟩,
          ⟨example_packet 5, 96, 5⟩], max_arrival_time := 1007, ssrc := 1 } 100 4 = none :=
  (C13_lost_seq_older_than_storage
    { queue := [⟨example_packet 7, 96, 7⟩, ⟨example_packet 6, 96, 6⟩,
        ⟨example_packet 5, 96, 5⟩], max_arrival_time := 1007, ssrc := 1 } 100 4
    (by decide)).1.2 (by decide)

/-- C13 fails as stated: in the storage 0,1,2,3(F),4(F),5(F),6,8,9(F),10(F)
every entry is cyclically newer than `lost_seq = 65535`, yet the call returns
the oldest group, the packets 0 to 5: the FEC entry 5 is not older than the
lost sequence number and has a media entry as newer neighbour. -/
theorem C13_counterexample :
    (∀ e ∈ example_storage.queue, 0 < to_gint16 ((e.seq : Int) - (65535 : Int)))
    ∧ rtp_storage_stream_get_packets_for_recovery example_storage 100 65535
      = some [example_packet 0, example_packet 1, example_packet 2, example_packet 3,
          example_packet 4, example_packet 5]
    ∧ rtp_storage_stream_get_packets_for_recovery example_storage 100 65535 ≠ none := by
  refine ⟨by decide, by decide, by decide⟩

/-! ## C14 -/

/-- Under the half-range assumption the cyclic comparison is the difference of
the keys. -/
theorem compare_seqnum_eq_key_sub (b s1 s2 : Nat) (h1 : seq_key b s1 < 32768)
    (h2 : seq_key b s2 < 32768) :
    gst_rtp_buffer_compare_seqnum s1 s2 = seq_key b s2 - seq_key b s1 := by
  unfold gst_rtp_buffer_compare_seqnum to_gint16 seq_key at *
  omega

/-- One insertion keeps the queue (head first) in non-increasing order of the
keys, when all keys are in the lower half range. -/
theorem add_item_key_sorted (b : Nat) (stream : RtpStorageStream) (buffer : GstBuffer)
    (pt seq : Nat) (hk : ∀ e ∈ stream.queue, seq_key b e.seq < 32768)
    (hs : seq_key b seq < 32768)
    (hsorted : List.Pairwise (fun n o => seq_key b o.seq ≤ seq_key b n.seq) stream.queue) :
    List.Pairwise (fun n o => seq_key b o.seq ≤ seq_key b n.seq)
      (rtp_storage_stream_add_item stream buffer pt seq).queue := by
  obtain ⟨pre, post, h1, h2, h3, h4⟩ :=
    insert_before_find_split stream.queue (rtp_storage_item_new buffer pt seq)
  have hq : (rtp_storage_stream_add_item stream buffer pt seq).queue
      = pre ++ rtp_storage_item_new buffer pt seq :: post := h2
  rw [hq]
  rw [h1, List.pairwise_append] at hsorted
  obtain ⟨hpre, hpost, hcross⟩ := hsorted
  have hkpre : ∀ e ∈ pre, seq_key b e.seq < 32768 :=
    fun e he => hk e (by rw [h1]; exact List.mem_append_left _ he)
  have hkpost : ∀ e ∈ post, seq_key b e.seq < 32768 :=
    fun e he => hk e (by rw [h1]; exact List.mem_append_right _ he)
  have hpre_x : ∀ e ∈ pre, seq_key b seq ≤ seq_key b e.seq := by
    intro e he
    have := h3 e he
    simp only [rtp_storage_item_new] at this
    rw [compare_seqnum_eq_key_sub b e.seq seq (hkpre e he) hs] at this
    omega
  have hx_post : ∀ e ∈ post, seq_key b e.seq ≤ seq_key b seq := by
    intro e he
    cases post with
    | nil => simp at he
    | cons p rest =>
      have hp := h4 p (by simp)
      simp only [rtp_storage_item_new] at hp
      rw [compare_seqnum_eq_key_sub b p.seq seq (hkpost p (List.mem_cons_self _ _)) hs] at hp
      rcases List.mem_cons.1 he with rfl | he
      · omega
      · have := (List.pairwise_cons.1 hpost).1 e he
        omega
  rw [List.pairwise_append]
  refine ⟨hpre, List.pairwise_cons.2 ⟨hx_post, hpost⟩, ?_⟩
  intro a ha c hc
  rcases List.mem_cons.1 hc with rfl | hc
  · exact hpre_x a ha
  · exact hcross a ha c hc

theorem add_item_perm (stream : RtpStorageStream) (buffer : GstBuffer) (pt seq : Nat) :
    List.Perm (rtp_storage_stream_add_item stream buffer pt seq).queue
      (rtp_storage_item_new buffer pt seq :: stream.queue) := by
  obtain ⟨pre, post, h1, h2, _⟩ := add_item_split stream buffer pt seq
  rw [h2, h1]
  exact List.perm_middle

theorem add_items_key_sorted (b : Nat) (items : List RtpStorageItem) (stream : RtpStorageStream)
    (hk : ∀ e ∈ stream.queue, seq_key b e.seq < 32768)
    (hi : ∀ x ∈ items, seq_key b x.seq < 32768)
    (hsorted : List.Pairwise (fun n o => seq_key b o.seq ≤ seq_key b n.seq) stream.queue) :
    List.Pairwise (fun n o => seq_key b o.seq ≤ seq_key b n.seq) (add_items stream items).queue
    ∧ (∀ e ∈ (add_items stream items).queue, seq_key b e.seq < 32768)
    ∧ List.Perm (add_items stream items).queue (items.reverse ++ stream.queue) := by
  induction items generalizing stream with
  | nil => exact ⟨hsorted, hk, by simp [add_items]⟩
  | cons x rest ih =>
    have hx := hi x (List.mem_cons_self _ _)
    have hk1 : ∀ e ∈ (rtp_storage_stream_add_item stream x.buffer x.pt x.seq).queue,
        seq_key b e.seq < 32768 := by
      intro e he
      rcases (mem_add_item stream x.buffer x.pt x.seq e).1 he with rfl | he
      · exact hx
      · exact hk e he
    obtain ⟨h1, h2, h3⟩ := ih (rtp_storage_stream_add_item stream x.buffer x.pt x.seq) hk1
      (fun y hy => hi y (List.mem_cons_of_mem _ hy))
      (add_item_key_sorted b stream x.buffer x.pt x.seq hk hx hsorted)
    refine ⟨h1, h2, ?_⟩
    simp only [add_items]
    refine h3.trans ?_
    have hp := add_item_perm stream x.buffer x.pt x.seq
    have hxeq : rtp_storage_item_new x.buffer x.pt x.seq = x := rfl
    rw [hxeq] at hp
    simp only [List.reverse_cons, List.append_assoc, List.singleton_append]
    exact List.Perm.append_left _ hp

/-- C14: for every base `b` and every sequence of `rtp_storage_stream_add_item`
calls on a new stream whose sequence numbers all have `(s - b) mod 65536 < 32768`,
the storage read oldest to newest holds exactly the inserted entries, in
non-decreasing order of the key `(seq - b) mod 65536` for any two of them, not
only adjacent ones; so the older-positioned of any two entries is not
cyclically newer than the other (`(gint16) (a.seq - c.seq) <= 0`). -/
theorem C14_half_range_total_order (b ssrc : Nat) (items : List RtpStorageItem)
    (hhalf : ∀ x ∈ items, seq_key b x.seq < 32768) :
    List.Pairwise (fun a c => seq_key b a.seq ≤ seq_key b c.seq)
      (oldest_to_newest (add_items (rtp_storage_stream_new ssrc) items))
    ∧ List.Pairwise (fun a c => to_gint16 ((a.seq : Int) - (c.seq : Int)) ≤ 0)
      (oldest_to_newest (add_items (rtp_storage_stream_new ssrc) items))
    ∧ List.Perm (oldest_to_newest (add_items (rtp_storage_stream_new ssrc) items)) items := by
  obtain ⟨h1, h2, h3⟩ := add_items_key_sorted b items (rtp_storage_stream_new ssrc)
    (by simp [rtp_storage_stream_new]) hhalf (by simp [rtp_storage_stream_new])
  have hkey : List.Pairwise (fun a c => seq_key b a.seq ≤ seq_key b c.seq)
      (oldest_to_newest (add_items (rtp_storage_stream_new ssrc) items)) := by
    unfold oldest_to_newest
    rw [List.pairwise_reverse]
    exact h1
  have hk : ∀ e ∈ oldest_to_newest (add_items (rtp_storage_stream_new ssrc) items),
      seq_key b e.seq < 32768 := fun e he => h2 e (List.mem_reverse.1 he)
  refine ⟨hkey, ?_, ?_⟩
  · refine (List.Pairwise.and_mem.1 hkey).imp ?_
    rintro a c ⟨ha, hc, hle⟩
    have := compare_seqnum_eq_key_sub b c.seq a.seq (hk c hc) (hk a ha)
    unfold gst_rtp_buffer_compare_seqnum at this
    rw [this]
    omega
  · unfold oldest_to_newest
    refine (List.reverse_perm _).trans ?_
    refine h3.trans ?_
    simp only [rtp_storage_stream_new, List.append_nil]
    exact List.reverse_perm _

/-- C14 on the insertions 65534, 1, 65535, 0 with base 65530 (keys 4, 7, 5, 6):
the storage reads 65534, 65535, 0, 1 from oldest to newest. -/
theorem C14_half_range_total_order_witness :
    (oldest_to_newest (add_items (rtp_storage_stream_new 1) wraparound_items)).map
        (fun e => e.seq) = [65534, 65535, 0, 1]
    ∧ List.Pairwise (fun a c => seq_key 65530 a.seq ≤ seq_key 65530 c.seq)
      (oldest_to_newest (add_items (rtp_storage_stream_new 1) wraparound_items)) :=
  ⟨by decide, (C14_half_range_total_order 65530 1 wraparound_items (by decide)).1⟩

/-! ## C15 -/

/-- Every list is a run of FEC entries, or ends with a non-empty run of media
entries followed by a run of FEC entries, the media run being preceded by
nothing or by an FEC entry. -/
theorem media_run_decomp (pt_fec : Nat) (l : List RtpStorageItem) :
    (∀ e ∈ l, e.pt = pt_fec) ∨
    ∃ rest media fec, l = rest ++ media ++ fec ∧ media ≠ [] ∧
      (∀ e ∈ media, e.pt ≠ pt_fec) ∧ (∀ e ∈ fec, e.pt = pt_fec) ∧
      (∀ p ∈ rest.getLast?, p.pt = pt_fec) := by
  induction l using List.reverseRecOn with
  | nil => exact Or.inl (by simp)
  | append_singleton l x ih =>
    by_cases hx : x.pt = pt_fec
    · rcases ih with hall | ⟨rest, media, fec, h1, h2, h3, h4, h5⟩
      · left
        intro e he
        rcases List.mem_append.1 he with he | he
        · exact hall e he
        · simp only [List.mem_singleton] at he; rw [he]; exact hx
      · right
        refine ⟨rest, media, fec ++ [x], by rw [h1]; simp, h2, h3, ?_, h5⟩
        intro e he
        rcases List.mem_append.1 he with he | he
        · exact h4 e he
        · simp only [List.mem_singleton] at he; rw [he]; exact hx
    · right
      rcases ih with hall | ⟨rest, media, fec, h1, h2, h3, h4, h5⟩
      · refine ⟨l, [x], [], by simp, by simp, ?_, by simp, ?_⟩
        · intro e he
          simp only [List.mem_singleton] at he; rw [he]; exact hx
        · intro p hp
          exact hall p (List.mem_of_mem_getLast? hp)
      · cases fec with
        | nil =>
          refine ⟨rest, media ++ [x], [], by rw [h1]; simp, by simp, ?_, by simp, h5⟩
          intro e he
          rcases List.mem_append.1 he with he | he
          · exact h3 e he
          · simp only [List.mem_singleton] at he; rw [he]; exact hx
        | cons f fs =>
          refine ⟨l, [x], [], by simp, by simp, ?_, by simp, ?_⟩
          · intro e he
            simp only [List.mem_singleton] at he; rw [he]; exact hx
          · intro p hp
            rw [h1] at hp
            have hlast : (rest ++ media ++ f :: fs).getLast? = (f :: fs).getLast? := by
              rw [List.getLast?_append_of_ne_nil _ (by simp)]
            rw [hlast] at hp
            exact h4 p (List.mem_of_mem_getLast? hp)

/-- C15, as amended: on a storage that does not hold `lost_seq`, a list returned
by `rtp_storage_stream_get_packets_for_recovery` is the packets of a contiguous
run of the storage that ends with a closing FEC entry (followed by nothing or
by a media entry).  When a media entry is located before that closing entry,
the run is a whole FEC group: a non-empty maximal run of media entries
(preceded by nothing or by an FEC entry) followed by all the FEC entries up to
the closing one.  When no media entry is located before it, the run is the
closing FEC entry alone, the FEC entries located before it being left out. -/
theorem C15_returned_group_shape (stream : RtpStorageStream) (pt_fec lost_seq : Nat)
    (l : List GstBuffer)
    (hno : ∀ e ∈ stream.queue, e.seq ≠ lost_seq)
    (hres : rtp_storage_stream_get_packets_for_recovery stream pt_fec lost_seq = some l) :
    ∃ older run newer, oldest_to_newest stream = older ++ run ++ newer ∧
      l = run.map (fun e => e.buffer) ∧
      (newer = [] ∨ ∃ n t, newer = n :: t ∧ n.pt ≠ pt_fec) ∧
      ((∃ media fec, run = media ++ fec ∧ media ≠ [] ∧ fec ≠ [] ∧
          (∀ e ∈ media, e.pt ≠ pt_fec) ∧ (∀ e ∈ fec, e.pt = pt_fec) ∧
          (∀ p ∈ older.getLast?, p.pt = pt_fec)) ∨
       (∃ e, run = [e] ∧ e.pt = pt_fec ∧ ∀ p ∈ older, p.pt = pt_fec)) := by
  rw [get_packets_eq_spec stream pt_fec lost_seq hno] at hres
  unfold spec_recovery_group at hres
  cases hj : first_closing pt_fec lost_seq (oldest_to_newest stream) with
  | none => rw [hj] at hres; exact absurd hres (by simp)
  | some j =>
    rw [hj] at hres
    simp only [Option.some.injEq] at hres
    obtain ⟨hlt, hclose, _⟩ := first_closing_some pt_fec lost_seq _ j hj
    generalize oldest_to_newest stream = L at hres hlt hclose ⊢
    cases hd : L.drop j with
    | nil =>
      have := congrArg List.length hd
      simp only [List.length_drop, List.length_nil] at this
      omega
    | cons e B =>
      rw [hd, is_closing_cons] at hclose
      obtain ⟨hept, _, hB⟩ := hclose
      have hL : L = L.take j ++ e :: B := by rw [← hd, List.take_append_drop]
      have hlen : (L.take j).length = j := by
        rw [List.length_take]; omega
      rcases media_run_decomp pt_fec (L.take j) with hall | ⟨rest, media, fec, h1, h2, h3, h4, h5⟩
      · have hi := group_start_no_media pt_fec L j hall
        rw [hi, hd] at hres
        refine ⟨L.take j, [e], B, by rw [List.append_assoc]; exact hL, ?_, hB,
          Or.inr ⟨e, rfl, hept, hall⟩⟩
        rw [← hres]
        have : j + 1 - j = 1 := by omega
        rw [this]
        simp
      · have hi := group_start_of_runs pt_fec L j rest media fec h1 h2 h3 h4 h5
        have hL2 : L = rest ++ (media ++ (fec ++ [e])) ++ B := by
          conv => lhs; rw [hL, h1]
          simp
        have hj2 : j = rest.length + media.length + fec.length := by
          rw [← hlen, h1]; simp; omega
        have hdrop : L.drop rest.length = (media ++ (fec ++ [e])) ++ B := by
          conv => lhs; rw [hL2, List.append_assoc]
          rw [List.drop_left]
        have htake : (L.drop rest.length).take (j + 1 - rest.length)
            = media ++ (fec ++ [e]) := by
          rw [hdrop]
          have : j + 1 - rest.length = (media ++ (fec ++ [e])).length := by
            simp; omega
          rw [this, List.take_left]
        rw [hi, htake] at hres
        refine ⟨rest, media ++ (fec ++ [e]), B, hL2, hres.symm, hB, Or.inl ⟨media, fec ++ [e],
          rfl, h2, by simp, h3, ?_, h5⟩⟩
        intro x hx
        rcases List.mem_append.1 hx with hx | hx
        · exact h4 x hx
        · simp only [List.mem_singleton] at hx; rw [hx]; exact hept

/-- C15 on the storage 0,1,2,3(F),4(F),5(F),6,8,9(F),10(F) and `lost_seq = 7`:
the returned packets 6, 8, 9(F), 10(F) are a whole group. -/
theorem C15_returned_group_shape_witness :
    ∃ older run newer, oldest_to_newest example_storage = older ++ run ++ newer ∧
      [example_packet 6, example_packet 8, example_packet 9, example_packet 10]
        = run.map (fun e => e.buffer) ∧
      (newer = [] ∨ ∃ n t, newer = n :: t ∧ n.pt ≠ 100) ∧
      ((∃ media fec, run = media ++ fec ∧ media ≠ [] ∧ fec ≠ [] ∧
          (∀ e ∈ media, e.pt ≠ 100) ∧ (∀ e ∈ fec, e.pt = 100) ∧
          (∀ p ∈ older.getLast?, p.pt = 100)) ∨
       (∃ e, run = [e] ∧ e.pt = 100 ∧ ∀ p ∈ older, p.pt = 100)) :=
  C15_returned_group_shape example_storage 100 7 _ (by decide) (by decide)

/-- C15 fails as stated: in the storage 1(F), 2(F), which does not hold
`lost_seq = 0`, the trailing run of FEC entries is 1(F), 2(F) and no media
entry leads it, yet the call returns the packet 2(F) alone: the FEC entry 1 of
the run that closes the group is not in the returned list. -/
theorem C15_counterexample :
    oldest_to_newest fec_pair_storage
      = [⟨example_packet 1, 100, 1⟩, ⟨example_packet 2, 100, 2⟩]
    ∧ (∀ e ∈ fec_pair_storage.queue, e.seq ≠ 0)
    ∧ rtp_storage_stream_get_packets_for_recovery fec_pair_storage 100 0
      = some [example_packet 2]
    ∧ ¬ (∀ l, rtp_storage_stream_get_packets_for_recovery fec_pair_storage 100 0 = some l →
        ∀ e ∈ oldest_to_newest fec_pair_storage, e.pt = 100 → e.buffer ∈ l) := by
  have hres : rtp_storage_stream_get_packets_for_recovery fec_pair_storage 100 0
      = some [example_packet 2] := by decide
  refine ⟨by decide, by decide, hres, ?_⟩
  intro hall
  have := hall _ hres ⟨example_packet 1, 100, 1⟩ (by decide) (by decide)
  exact absurd this (by decide)

/-! ## C16 -/

/-- C16, as amended: `rtp_storage_stream_get_redundant_packet (stream, s)`
returns the packet of the newest-positioned stored entry with seq `s` (the
first one met from `queue.head`): in a storage reading `older ++ x :: newer`
from oldest to newest, with `x.seq == s` and no entry of `newer` having seq
`s`, the packet of `x` is returned, whatever `older` holds. -/
theorem C16_lookup_returns_newest_duplicate (stream : RtpStorageStream) (s : Nat)
    (older : List RtpStorageItem) (x : RtpStorageItem) (newer : List RtpStorageItem)
    (hsplit : oldest_to_newest stream = older ++ x :: newer)
    (hx : x.seq = s) (hnewer : ∀ e ∈ newer, e.seq ≠ s) :
    rtp_storage_stream_get_redundant_packet stream s = some x.buffer := by
  have hq : stream.queue = newer.reverse ++ x :: older.reverse := by
    have := congrArg List.reverse hsplit
    unfold oldest_to_newest at this
    rw [List.reverse_reverse] at this
    rw [this]
    simp
  unfold rtp_storage_stream_get_redundant_packet
  rw [hq, ← hx]
  apply get_redundant_packet_loop_split
  intro e he
  rw [hx]
  exact hnewer e (List.mem_reverse.1 he)

/-- C16 on the storage holding seq 7 twice (packet 1 inserted first, then
packet 2): the lookup of 7 returns packet 2, the newest-positioned one. -/
theorem C16_lookup_returns_newest_duplicate_witness :
    oldest_to_newest duplicate_storage = [⟨⟨1, 10, 10⟩, 96, 7⟩] ++ ⟨⟨2, 20, 20⟩, 96, 7⟩ :: []
    ∧ rtp_storage_stream_get_redundant_packet duplicate_storage 7
      = some (⟨⟨2, 20, 20⟩, 96, 7⟩ : RtpStorageItem).buffer :=
  ⟨by decide, C16_lookup_returns_newest_duplicate duplicate_storage 7
    [⟨⟨1, 10, 10⟩, 96, 7⟩] ⟨⟨2, 20, 20⟩, 96, 7⟩ [] (by decide) (by decide) (by decide)⟩

/-- C16 fails as stated: the storage built by inserting packet 1 and then packet
2, both with seq 7, reads packet 1, packet 2 from oldest to newest, and the
lookup of 7 returns packet 2, not the oldest-positioned packet 1. -/
theorem C16_counterexample :
    (oldest_to_newest duplicate_storage).map (fun e => (e.buffer, e.seq))
      = [((⟨1, 10, 10⟩ : GstBuffer), 7), ((⟨2, 20, 20⟩ : GstBuffer), 7)]
    ∧ rtp_storage_stream_get_redundant_packet duplicate_storage 7
      = some (⟨2, 20, 20⟩ : GstBuffer)
    ∧ rtp_storage_stream_get_redundant_packet duplicate_storage 7
      ≠ some (⟨1, 10, 10⟩ : GstBuffer) := by
  refine ⟨by decide, by decide, by decide⟩

/-! ## C17 -/

/-- C17, as amended: `rtp_storage_stream_add_item` places the new entry, in the
oldest-to-newest order, immediately after (on the newer side of) the first
existing entry, counted from the newest end, whose seq is not cyclically newer
than `s` (`(gint16) (s - e.seq) >= 0`), or at the oldest end when there is
none: every entry on its newer side has `(gint16) (s - e.seq) < 0`.  All the
old entries are retained in their order, and every stored entry with the same
seq `s` lies on the older side of the new one. -/
theorem C17_insertion_position (stream : RtpStorageStream) (buffer : GstBuffer) (pt s : Nat) :
    ∃ older newer, oldest_to_newest stream = older ++ newer ∧
      oldest_to_newest (rtp_storage_stream_add_item stream buffer pt s)
        = older ++ rtp_storage_item_new buffer pt s :: newer ∧
      (∀ e ∈ newer, to_gint16 ((s : Int) - (e.seq : Int)) < 0) ∧
      (∀ e ∈ older.getLast?, 0 ≤ to_gint16 ((s : Int) - (e.seq : Int))) ∧
      (∀ e ∈ newer, e.seq ≠ s) := by
  obtain ⟨pre, post, h1, h2, h3, h4⟩ :=
    insert_before_find_split stream.queue (rtp_storage_item_new buffer pt s)
  have hq : (rtp_storage_stream_add_item stream buffer pt s).queue
      = pre ++ rtp_storage_item_new buffer pt s :: post := h2
  refine ⟨post.reverse, pre.reverse, ?_, ?_, ?_, ?_, ?_⟩
  · unfold oldest_to_newest; rw [h1]; simp
  · unfold oldest_to_newest; rw [hq]; simp
  · intro e he
    exact h3 e (List.mem_reverse.1 he)
  · intro e he
    rw [List.getLast?_reverse] at he
    exact h4 e he
  · intro e he
    exact compare_seqnum_neg_ne _ _ (h3 e (List.mem_reverse.1 he))

/-- C17 fails as stated.  Adding packet 2 with seq 7 to the storage holding
packet 1 with seq 7 gives packet 1, packet 2 from oldest to newest, while the
position worded in the specification (before the first entry, from the oldest
end, that is not cyclically older) gives packet 2, packet 1.  And adding a
second seq 0 to the storage 0, 30000, 60000 puts it at the newest end, not next
to the stored seq 0. -/
theorem C17_counterexample :
    oldest_to_newest (rtp_storage_stream_add_item single_storage ⟨2, 20, 20⟩ 96 7)
      = [⟨⟨1, 10, 10⟩, 96, 7⟩, ⟨⟨2, 20, 20⟩, 96, 7⟩]
    ∧ spec_add_item (oldest_to_newest single_storage) ⟨⟨2, 20, 20⟩, 96, 7⟩
      = [⟨⟨2, 20, 20⟩, 96, 7⟩, ⟨⟨1, 10, 10⟩, 96, 7⟩]
    ∧ oldest_to_newest (rtp_storage_stream_add_item single_storage ⟨2, 20, 20⟩ 96 7)
      ≠ spec_add_item (oldest_to_newest single_storage) ⟨⟨2, 20, 20⟩, 96, 7⟩
    ∧ (oldest_to_newest (rtp_storage_stream_add_item spread_storage ⟨9, 50, 50⟩ 96 0)).map
        (fun e => (e.buffer.id, e.seq))
      = [(0, 0), (30000, 30000), (60000, 60000), (9, 0)] := by
  refine ⟨by decide, by decide, by decide, by decide⟩

/-! ## C18 -/

/-- A list holding an entry with seq `s` splits at the first such entry. -/
theorem exists_first_match (s : Nat) (l : List RtpStorageItem) (h : ∃ e ∈ l, e.seq = s) :
    ∃ older x newer, l = older ++ x :: newer ∧ x.seq = s ∧ ∀ p ∈ older, p.seq ≠ s := by
  induction l with
  | nil => obtain ⟨e, he, _⟩ := h; simp at he
  | cons y rest ih =>
    by_cases hy : y.seq = s
    · exact ⟨[], y, rest, rfl, hy, by simp⟩
    · have hrest : ∃ e ∈ rest, e.seq = s := by
        obtain ⟨e, he, hs⟩ := h
        rcases List.mem_cons.1 he with rfl | he
        · exact absurd hs hy
        · exact ⟨e, he, hs⟩
      obtain ⟨older, x, newer, h1, h2, h3⟩ := ih hrest
      refine ⟨y :: older, x, newer, by simp [h1], h2, ?_⟩
      intro p hp
      rcases List.mem_cons.1 hp with rfl | hp
      · exact hy
      · exact h3 p hp

/-- Two 16 bit sequence numbers with the same key are equal. -/
theorem seq_key_inj (b s1 s2 : Nat) (h1 : s1 < 65536) (h2 : s2 < 65536)
    (h : seq_key b s1 = seq_key b s2) : s1 = s2 := by
  unfold seq_key at h
  omega

/-- C18: for every base `b` and every storage of 16 bit sequence numbers that
is sorted oldest to newest in non-decreasing order of `(seq - b) mod 65536`
with all keys below 32768, when `lost_seq` is the seq of some stored entry,
`rtp_storage_stream_get_packets_for_recovery` returns exactly one packet, the
packet of the oldest-positioned entry with seq `lost_seq`; no entry located
before it is closing. -/
theorem C18_stored_lost_packet_returned_alone (b : Nat) (stream : RtpStorageStream)
    (pt_fec lost_seq : Nat)
    (hsorted : List.Pairwise (fun a c => seq_key b a.seq ≤ seq_key b c.seq)
      (oldest_to_newest stream))
    (hhalf : ∀ e ∈ stream.queue, seq_key b e.seq < 32768)
    (h16 : ∀ e ∈ stream.queue, e.seq < 65536)
    (hstored : ∃ e ∈ stream.queue, e.seq = lost_seq) :
    ∃ older x newer, oldest_to_newest stream = older ++ x :: newer ∧
      x.seq = lost_seq ∧ (∀ p ∈ older, p.seq ≠ lost_seq) ∧
      rtp_storage_stream_get_packets_for_recovery stream pt_fec lost_seq = some [x.buffer] ∧
      (∀ k, k < older.length →
        is_closing pt_fec lost_seq ((oldest_to_newest stream).drop k) = false) := by
  have hex : ∃ e ∈ oldest_to_newest stream, e.seq = lost_seq := by
    obtain ⟨e, he, hs⟩ := hstored
    exact ⟨e, List.mem_reverse.2 he, hs⟩
  obtain ⟨older, x, newer, h1, h2, h3⟩ := exists_first_match lost_seq _ hex
  have hmem : ∀ e ∈ oldest_to_newest stream, e ∈ stream.queue :=
    fun e he => List.mem_reverse.1 he
  have hxmem : x ∈ oldest_to_newest stream := by rw [h1]; simp
  have hclose : ∀ k, k < older.length →
      is_closing pt_fec lost_seq ((oldest_to_newest stream).drop k) = false := by
    intro k hk
    rw [h1, List.drop_append_of_le_length (le_of_lt hk)]
    cases hd : older.drop k with
    | nil =>
      have := congrArg List.length hd
      simp only [List.length_drop, List.length_nil] at this
      omega
    | cons p rest =>
      have hp : p ∈ older := List.mem_of_mem_drop (by rw [hd]; exact List.mem_cons_self _ _)
      have hpmem : p ∈ oldest_to_newest stream := by
        rw [h1]; exact List.mem_append_left _ hp
      have hle : seq_key b p.seq ≤ seq_key b x.seq := by
        rw [h1, List.pairwise_append] at hsorted
        exact hsorted.2.2 p hp x (List.mem_cons_self _ _)
      have hne : seq_key b p.seq ≠ seq_key b x.seq := by
        intro heq
        have := seq_key_inj b p.seq x.seq (h16 p (hmem p hpmem)) (h16 x (hmem x hxmem)) heq
        exact h3 p hp (this.trans h2)
      have hcmp := compare_seqnum_eq_key_sub b lost_seq p.seq
        (by rw [← h2]; exact hhalf x (hmem x hxmem)) (hhalf p (hmem p hpmem))
      rw [← h2] at hcmp
      by_contra hc
      have hc1 : is_closing pt_fec lost_seq (p :: rest ++ x :: newer) = true := by
        simpa using hc
      rw [List.cons_append, is_closing_cons] at hc1
      have := hc1.2.1
      rw [← h2, hcmp] at this
      omega
  refine ⟨older, x, newer, h1, h2, h3, ?_, hclose⟩
  rw [h1] at hclose
  unfold oldest_to_newest at h1
  obtain ⟨he1, he2⟩ := recovery_scan_reaches_match pt_fec lost_seq older x newer 0
    { ret_length := 0, end_ := none, start := none, saw_fec := true } h2 h3 hclose
  rw [← h1] at he1 he2
  rw [get_packets_of_scan stream pt_fec lost_seq (0 + older.length) (0 + older.length)
    (le_refl _) (by rw [h1]; simp) he1 (by rw [he2]; rfl)]
  rw [h1]
  simp

/-- C18 on the storage 0,1,2,3(F),4(F),5(F),6,8,9(F),10(F) with base 0 and
`lost_seq = 4`: the FEC entry 3 located before the stored entry 4 does not
close a group, and the packet 4 is returned alone. -/
theorem C18_stored_lost_packet_returned_alone_witness :
    ∃ older x newer, oldest_to_newest example_storage = older ++ x :: newer ∧
      x.seq = 4 ∧ (∀ p ∈ older, p.seq ≠ 4) ∧
      rtp_storage_stream_get_packets_for_recovery example_storage 100 4 = some [x.buffer] ∧
      (∀ k, k < older.length →
        is_closing 100 4 ((oldest_to_newest example_storage).drop k) = false) :=
  C18_stored_lost_packet_returned_alone 0 example_storage 100 4
    (by decide) (by decide) (by decide) (by decide)

/-! ## C19 -/

/-- The combined call as the eviction step applied to the stream with the
updated high-water mark, followed by the insertion. -/
theorem resize_and_add_item_valid (stream : RtpStorageStream) (size_time : Nat)
    (buffer : GstBuffer) (pt seq : Nat)
    (hv : GST_CLOCK_TIME_IS_VALID (GST_BUFFER_DTS_OR_PTS buffer) = true) :
    rtp_storage_stream_resize_and_add_item stream size_time buffer pt seq
      = (rtp_storage_stream_resize
          (with_arrival_time stream (GST_BUFFER_DTS_OR_PTS buffer)) size_time).map
        (fun stream2 => rtp_storage_stream_add_item stream2 buffer pt seq) := by
  unfold rtp_storage_stream_resize_and_add_item with_arrival_time
  simp only [hv, if_true]
  split <;> simp_all

/-- C19: in every stream state reachable from `rtp_storage_stream_new` through
`rtp_storage_stream_resize_and_add_item` calls, every stored entry whose packet
has a valid arrival timestamp `t` has `t <= max_arrival_time`, the latter
being valid.  The same holds for the stream on which such a call runs
`rtp_storage_stream_resize` (the one with the mark brought up to the new
arrival time): its `max_arrival_time` is valid, so the first assertion of
`rtp_storage_stream_resize` holds and the call returns when the window passes
the other two, and for each stored entry the unsigned 64 bit difference
`max_arrival_time - arrival_time` is the true difference. -/
theorem C19_timestamps_below_high_water_mark :
    (∀ stream : RtpStorageStream, ReachableByResizeAndAdd stream →
      ∀ e ∈ stream.queue, GST_CLOCK_TIME_IS_VALID (GST_BUFFER_DTS_OR_PTS e.buffer) = true →
        GST_CLOCK_TIME_IS_VALID stream.max_arrival_time = true ∧
        GST_BUFFER_DTS_OR_PTS e.buffer ≤ stream.max_arrival_time ∧
        guint64_sub stream.max_arrival_time (GST_BUFFER_DTS_OR_PTS e.buffer)
          = stream.max_arrival_time - GST_BUFFER_DTS_OR_PTS e.buffer)
    ∧ (∀ (stream : RtpStorageStream) (W : Nat) (buffer : GstBuffer) (pt seq : Nat),
      ReachableByResizeAndAdd stream →
      buffer.dts < 18446744073709551616 → buffer.pts < 18446744073709551616 →
      GST_CLOCK_TIME_IS_VALID (GST_BUFFER_DTS_OR_PTS buffer) = true →
      rtp_storage_stream_resize_and_add_item stream W buffer pt seq
        = (rtp_storage_stream_resize
            (with_arrival_time stream (GST_BUFFER_DTS_OR_PTS buffer)) W).map
          (fun stream2 => rtp_storage_stream_add_item stream2 buffer pt seq) ∧
      GST_CLOCK_TIME_IS_VALID
        (with_arrival_time stream (GST_BUFFER_DTS_OR_PTS buffer)).max_arrival_time = true ∧
      (0 < W → W < 9223372036854775808 →
        ∃ stream2, rtp_storage_stream_resize
          (with_arrival_time stream (GST_BUFFER_DTS_OR_PTS buffer)) W = some stream2) ∧
      (∀ e ∈ (with_arrival_time stream (GST_BUFFER_DTS_OR_PTS buffer)).queue,
        GST_CLOCK_TIME_IS_VALID (GST_BUFFER_DTS_OR_PTS e.buffer) = true →
        GST_BUFFER_DTS_OR_PTS e.buffer
          ≤ (with_arrival_time stream (GST_BUFFER_DTS_OR_PTS buffer)).max_arrival_time ∧
        guint64_sub (with_arrival_time stream (GST_BUFFER_DTS_OR_PTS buffer)).max_arrival_time
            (GST_BUFFER_DTS_OR_PTS e.buffer)
          = (with_arrival_time stream (GST_BUFFER_DTS_OR_PTS buffer)).max_arrival_time
            - GST_BUFFER_DTS_OR_PTS e.buffer)) := by
  refine ⟨?_, ?_⟩
  · intro stream hreach e he hv
    obtain ⟨hlt, hall⟩ := reachable_invariant stream hreach
    obtain ⟨h1, h2⟩ := hall e he hv
    exact ⟨h1, h2, guint64_sub_eq _ _ h2 hlt⟩
  · intro stream W buffer pt seq hreach hd hp hv
    have hinv := reachable_invariant stream hreach
    obtain ⟨hi, hvm, _⟩ := max_update_invariant stream (GST_BUFFER_DTS_OR_PTS buffer) hinv
      (DTS_OR_PTS_lt buffer hd hp) hv
    have hi : timestamps_below_max
        (with_arrival_time stream (GST_BUFFER_DTS_OR_PTS buffer)) := hi
    have hvm : GST_CLOCK_TIME_IS_VALID
        (with_arrival_time stream (GST_BUFFER_DTS_OR_PTS buffer)).max_arrival_time = true := hvm
    refine ⟨resize_and_add_item_valid stream W buffer pt seq hv, hvm, ?_, ?_⟩
    · intro h0 h1
      exact resize_returns _ W hvm h0 h1
    · intro e he hev
      have h2 := (hi.2 e he hev).2
      exact ⟨h2, guint64_sub_eq _ _ h2 hi.1⟩

/-- C19 on the stream reached by one packet arrived at time 100: the stored
entry has its timestamp below the mark, and the difference does not wrap. -/
theorem C19_timestamps_below_high_water_mark_witness :
    ReachableByResizeAndAdd after_first_packet ∧
    ∀ e ∈ after_first_packet.queue,
      GST_CLOCK_TIME_IS_VALID (GST_BUFFER_DTS_OR_PTS e.buffer) = true →
        GST_CLOCK_TIME_IS_VALID after_first_packet.max_arrival_time = true ∧
        GST_BUFFER_DTS_OR_PTS e.buffer ≤ after_first_packet.max_arrival_time ∧
        guint64_sub after_first_packet.max_arrival_time (GST_BUFFER_DTS_OR_PTS e.buffer)
          = after_first_packet.max_arrival_time - GST_BUFFER_DTS_OR_PTS e.buffer :=
  have hreach : ReachableByResizeAndAdd after_first_packet :=
    ReachableByResizeAndAdd.step (rtp_storage_stream_new 1) after_first_packet 10
      ⟨1, 100, 100⟩ 96 1 (ReachableByResizeAndAdd.new 1) (by decide) (by decide) (by decide)
  ⟨hreach, C19_timestamps_below_high_water_mark.1 after_first_packet hreach⟩

/-! ## C20 -/

/-- C20: `rtp_storage_stream_add_item` yields the old list of entries with
exactly one new entry (the given packet, pt and seq) inserted at one position:
the length grows by one and the old entries are kept, unchanged and in order;
`rtp_storage_stream_resize`, when it returns, yields the old list with only a
run of entries removed from the oldest end, so the surviving entries are a
newest-side suffix of the old list in unchanged order; neither changes
`max_arrival_time` or `ssrc`.  `rtp_storage_stream_resize` returns whenever
`max_arrival_time` is valid and the window passes the assertions. -/
theorem C20_insertion_and_eviction_frame :
    (∀ (stream : RtpStorageStream) (buffer : GstBuffer) (pt seq : Nat),
      (∃ older newer, oldest_to_newest stream = older ++ newer ∧
        oldest_to_newest (rtp_storage_stream_add_item stream buffer pt seq)
          = older ++ rtp_storage_item_new buffer pt seq :: newer) ∧
      (oldest_to_newest (rtp_storage_stream_add_item stream buffer pt seq)).length
        = (oldest_to_newest stream).length + 1 ∧
      (rtp_storage_stream_add_item stream buffer pt seq).max_arrival_time
        = stream.max_arrival_time ∧
      (rtp_storage_stream_add_item stream buffer pt seq).ssrc = stream.ssrc)
    ∧ (∀ (stream stream1 : RtpStorageStream) (W : Nat),
      rtp_storage_stream_resize stream W = some stream1 →
      (∃ removed, oldest_to_newest stream = removed ++ oldest_to_newest stream1) ∧
      stream1.max_arrival_time = stream.max_arrival_time ∧
      stream1.ssrc = stream.ssrc)
    ∧ (∀ (stream : RtpStorageStream) (W : Nat),
      GST_CLOCK_TIME_IS_VALID stream.max_arrival_time = true →
      0 < W → W < 9223372036854775808 →
      ∃ stream1, rtp_storage_stream_resize stream W = some stream1) := by
  refine ⟨?_, ?_, resize_returns⟩
  · intro stream buffer pt seq
    obtain ⟨pre, post, h1, h2, _⟩ := add_item_split stream buffer pt seq
    have hold : oldest_to_newest stream = post.reverse ++ pre.reverse := by
      unfold oldest_to_newest; rw [h1]; simp
    have hnew : oldest_to_newest (rtp_storage_stream_add_item stream buffer pt seq)
        = post.reverse ++ rtp_storage_item_new buffer pt seq :: pre.reverse := by
      unfold oldest_to_newest; rw [h2]; simp
    refine ⟨⟨post.reverse, pre.reverse, hold, hnew⟩, ?_, rfl, rfl⟩
    rw [hold, hnew]
    simp only [List.length_append, List.length_cons]
    omega
  · intro stream stream1 W h
    obtain ⟨hm, hs, removed, hsplit, _⟩ := resize_removed_kept stream stream1 W h
    exact ⟨⟨removed, hsplit⟩, hm, hs⟩

/-- C20 on a concrete stream: window 10, high-water mark 100, storage (oldest to
newest) seq 1 at time 0, seq 2 at time 95: the eviction removes seq 1 and
leaves the mark and the ssrc as they were. -/
theorem C20_insertion_and_eviction_frame_witness :
    rtp_storage_stream_resize old_then_young 10 = some young_only
    ∧ (∃ removed, oldest_to_newest old_then_young = removed ++ oldest_to_newest young_only)
    ∧ young_only.max_arrival_time = old_then_young.max_arrival_time
    ∧ young_only.ssrc = old_then_young.ssrc :=
  ⟨by decide, C20_insertion_and_eviction_frame.2.1 old_then_young young_only 10 (by decide)⟩

end RtpStorage
